import Mathlib

/-!
Verification of the structural-detection-and-safe-mutation core of the
electron-channel-doctor repository.

The definitions below are shallow embeddings, translated from
`src/lib/unused-code-detector.js`, `src/lib/safe-code-surgeon.js` and
`src/lib/ast-parser.js`.  JavaScript strings are modelled as `List Char`
(via `String.data`), JavaScript numbers that hold line counts as `Nat`/`Int`,
and the relevant JavaScript regular expressions as explicit deterministic
scanners (each of the embedded patterns is backtracking-free, so maximal-munch
scanning reproduces the JS engine's behaviour on them).
-/

namespace ECD

/-- JS regex word character class `\w` / the implicit class used by `\b`:
ASCII letters, digits and underscore. -/
def isWordChar (c : Char) : Bool :=
  c.isAlpha || c.isDigit || c = '_'

/-- Word-char test lifted to an optional character; positions outside the
string behave as non-word characters (JS `\b` semantics). -/
def isWordOpt : Option Char → Bool
  | none => false
  | some c => isWordChar c

/-- A JS `\b` word boundary holds between two (optional) adjacent characters
iff exactly one of them is a word character. -/
def wordBoundary (l r : Option Char) : Bool :=
  isWordOpt l != isWordOpt r

/-- JS identifier start character, as used by the detector's regexes:
`[a-zA-Z_$]`. -/
def isIdentStart (c : Char) : Bool :=
  c.isAlpha || c = '_' || c = '$'

/-- JS identifier continuation character: `[a-zA-Z0-9_$]`. -/
def isIdentChar (c : Char) : Bool :=
  isIdentStart c || c.isDigit

/-- JS regex whitespace class `\s` (the ASCII part, which is all the source
files use). -/
def isSpaceChar (c : Char) : Bool :=
  c = ' ' || c = '\t' || c = '\n' || c = '\r' || c = '\x0b' || c = '\x0c'

/-- Match a literal character sequence `pat` against a prefix of `s`;
returns the remaining suffix on success. -/
def charsMatch : List Char → List Char → Option (List Char)
  | [], s => some s
  | _ :: _, [] => none
  | p :: ps, c :: cs => if c = p then charsMatch ps cs else none

/-- One attempt of the pattern `\bIDENT\b` (with `IDENT` a literal, the result
of the escaping in `isUsedInFile`) at the current position of the subject.
`prev` is the character preceding this position (`none` at the start of the
subject), `s` the remaining subject.  Returns the suffix after the match. -/
def wordMatchAt (ident : List Char) (prev : Option Char) (s : List Char) :
    Option (List Char) :=
  if wordBoundary prev s.head? then
    match charsMatch ident s with
    | some rest =>
        if wordBoundary ident.getLast? rest.head? then some rest else none
    | none => none
  else none

/-- Fueled scanner for the successive non-overlapping matches of the
`g`-flagged regex `\bIDENT\b`, as `String.prototype.match` collects them:
scan left to right; after a successful match resume immediately after it.
The fuel argument only ensures structural recursion; `fuel > s.length`
makes it irrelevant (`wordMatchScan_fuel`). -/
def wordMatchScan (ident : List Char) : Nat → Option Char → List Char → List (List Char)
  | 0, _, _ => []
  | fuel + 1, prev, s =>
    if ident = [] then []
    else
      match wordMatchAt ident prev s with
      | some rest => ident :: wordMatchScan ident fuel ident.getLast? rest
      | none =>
        match s with
        | [] => []
        | c :: cs => wordMatchScan ident fuel (some c) cs

/-- The list of matches of `\bIDENT\b` (global flag) in the subject `s`,
with `prev` the character preceding `s` (`none` at a string start). -/
def wordMatchList (ident : List Char) (prev : Option Char) (s : List Char) :
    List (List Char) :=
  wordMatchScan ident (s.length + 1) prev s

/-- JavaScript values, as far as the detector's dynamic typing is relevant:
`isUsedInFile` receives either a string or some non-string value, and it
returns either a boolean or `null` (the value of `matches && matches.length > 1`
when `content.match` found nothing). -/
inductive JsValue where
  | vNull
  | vBool (b : Bool)
  | vStr (s : String)
  | vOther
deriving DecidableEq, Repr

/-- JS truthiness, restricted to the values above. -/
def jsTruthy : JsValue → Bool
  | .vNull => false
  | .vBool b => b
  | .vStr s => !(s == "")
  | .vOther => true

/-- `content.match(regex)` for the `g`-flagged word-bounded literal regex:
JS returns `null` when there is no match, otherwise the (non-empty) array of
matched substrings. -/
def jsMatchWord (content ident : List Char) : Option (List (List Char)) :=
  match wordMatchList ident none content with
  | [] => none
  | m :: ms => some (m :: ms)

/-- Number of whole-word matches of `ident` in `content` under the
left-to-right non-overlapping scan. -/
def countWordMatches (content ident : List Char) : Nat :=
  (wordMatchList ident none content).length

/-- Shallow embedding of `UnusedCodeDetector.isUsedInFile`
(src/lib/unused-code-detector.js:546-563).  The guard `!identifier ||
typeof identifier !== 'string'` returns `true`; otherwise the identifier is
regex-escaped (which makes every occurrence of it in the pattern literal; the
escaped pattern always compiles, so the `catch` branch never fires) and the
result is `matches && matches.length > 1`: JS `null` when `content.match`
found nothing, else the boolean. -/
def isUsedInFile (content : String) (identifier : JsValue) : JsValue :=
  match identifier with
  | .vStr s =>
    if s = "" then .vBool true
    else
      match jsMatchWord content.data s.data with
      | none => .vNull
      | some ms => .vBool (decide (1 < ms.length))
  | _ => .vBool true

/-! ### `detectUnusedFunctions` (src/lib/unused-code-detector.js:110-187)

The three definition-collecting regexes and the two usage regexes of
`detectUnusedFunctions` are embedded as deterministic scanners.  Each of the
patterns is backtracking-free: in every sequencing step of each pattern the
character classes of the adjacent sub-patterns are disjoint (whitespace vs
identifier characters vs punctuation), so the greedy JS engine behaves as
maximal munch, which is what the matchers below implement. -/

/-- `getLineNumber(content, index)`:
`content.substring(0, index).split('\n').length`. -/
def getLineNumber (content : List Char) (idx : Nat) : Nat :=
  ((content.take idx).filter (fun c => c = '\n')).length + 1

/-- Matcher for `function\s+([a-zA-Z_$][a-zA-Z0-9_$]*)\s*\(` at the current
position: returns the captured identifier and the suffix after the match. -/
def matchFnDecl (s : List Char) : Option (List Char × List Char) :=
  match charsMatch "function".data s with
  | none => none
  | some r1 =>
    let sp := r1.takeWhile isSpaceChar
    let r2 := r1.dropWhile isSpaceChar
    if sp = [] then none
    else
      match r2 with
      | [] => none
      | c :: cs =>
        if isIdentStart c then
          let idRest := cs.takeWhile isIdentChar
          let r3 := cs.dropWhile isIdentChar
          let r4 := r3.dropWhile isSpaceChar
          match r4 with
          | '(' :: r5 => some (c :: idRest, r5)
          | _ => none
        else none

/-- Matcher for
`(?:const|let|var)\s+([a-zA-Z_$][a-zA-Z0-9_$]*)\s*=\s*(?:\([^)]*\)|[a-zA-Z_$][a-zA-Z0-9_$]*)\s*=>`
at the current position (the arrow-function/function-expression pattern). -/
def matchArrowFn (s : List Char) : Option (List Char × List Char) :=
  let kw :=
    match charsMatch "const".data s with
    | some r => some r
    | none =>
      match charsMatch "let".data s with
      | some r => some r
      | none => charsMatch "var".data s
  match kw with
  | none => none
  | some r1 =>
    let sp := r1.takeWhile isSpaceChar
    let r2 := r1.dropWhile isSpaceChar
    if sp = [] then none
    else
      match r2 with
      | [] => none
      | c :: cs =>
        if isIdentStart c then
          let idRest := cs.takeWhile isIdentChar
          let r3 := (cs.dropWhile isIdentChar).dropWhile isSpaceChar
          match r3 with
          | '=' :: r4 =>
            let r5 := r4.dropWhile isSpaceChar
            let afterGroup :=
              match r5 with
              | '(' :: r6 =>
                match r6.dropWhile (fun c => !(c = ')')) with
                | ')' :: r7 => some r7
                | _ => none
              | _ =>
                match r5 with
                | [] => none
                | d :: ds => if isIdentStart d then some (ds.dropWhile isIdentChar) else none
            match afterGroup with
            | none => none
            | some r8 =>
              match charsMatch "=>".data (r8.dropWhile isSpaceChar) with
              | some r9 => some (c :: idRest, r9)
              | none => none
          | _ => none
        else none

/-- Matcher for `([a-zA-Z_$][a-zA-Z0-9_$]*)\s*\([^)]*\)\s*\{` at the current
position (the method-definition pattern). -/
def matchMethod (s : List Char) : Option (List Char × List Char) :=
  match s with
  | [] => none
  | c :: cs =>
    if isIdentStart c then
      let idRest := cs.takeWhile isIdentChar
      let r1 := (cs.dropWhile isIdentChar).dropWhile isSpaceChar
      match r1 with
      | '(' :: r2 =>
        match r2.dropWhile (fun d => !(d = ')')) with
        | ')' :: r3 =>
          match r3.dropWhile isSpaceChar with
          | '\x7b' :: r4 => some (c :: idRest, r4)
          | _ => none
        | _ => none
      | _ => none
    else none

/-- Global (`matchAll`) scan of a pattern matcher over the subject: find the
leftmost match at or after the current position, record its capture and start
index, resume after the matched text. -/
def scanCollect (matchAt : List Char → Option (List Char × List Char)) :
    Nat → Nat → List Char → List (List Char × Nat)
  | 0, _, _ => []
  | fuel + 1, pos, s =>
    match matchAt s with
    | some (cap, rest) =>
        (cap, pos) :: scanCollect matchAt fuel (pos + (s.length - rest.length)) rest
    | none =>
      match s with
      | [] => []
      | _ :: cs => scanCollect matchAt fuel (pos + 1) cs

/-- All matches of a pattern in a file's content, with start indices. -/
def matchAllIn (matchAt : List Char → Option (List Char × List Char))
    (content : List Char) : List (List Char × Nat) :=
  scanCollect matchAt (content.length + 1) 0 content

/-- Existence scan for a position test that may look at the preceding
character (for `\b`). -/
def scanTest (test : Option Char → List Char → Bool) :
    Nat → Option Char → List Char → Bool
  | 0, _, _ => false
  | fuel + 1, prev, s =>
    test prev s ||
      match s with
      | [] => false
      | c :: cs => scanTest test fuel (some c) cs

/-- `callRegex = new RegExp('\\b' + funcName + '\\s*\\(', 'g')` — the
call-site test: a word boundary, the function name, optional whitespace, an
opening parenthesis.  (The name is interpolated into the pattern unescaped;
the names captured by the definition regexes consist of identifier
characters, which are literal in a regex except for `$`, so this literal
model is exact for `$`-free names.) -/
def callTest (content name : List Char) : Bool :=
  scanTest
    (fun prev s =>
      wordBoundary prev s.head? &&
        match charsMatch name s with
        | some rest => (rest.dropWhile isSpaceChar).head? = some '('
        | none => false)
    (content.length + 1) none content

/-- `refRegex = new RegExp('\\b' + funcName + '\\b(?!\\s*[:(=])', 'g')` —
the bare-reference test: the name between word boundaries, not followed
(after optional whitespace) by `:`, `(` or `=`. -/
def refTest (content name : List Char) : Bool :=
  scanTest
    (fun prev s =>
      wordBoundary prev s.head? &&
        match charsMatch name s with
        | some rest =>
          wordBoundary name.getLast? rest.head? &&
            !(match (rest.dropWhile isSpaceChar).head? with
              | some c => c = ':' || c = '(' || c = '='
              | none => false)
        | none => false)
    (content.length + 1) none content

/-- One entry of the `definedFunctions` map: `{ name, file, line, type }`. -/
structure FnInfo where
  name : String
  file : String
  line : Nat
  kind : String
deriving DecidableEq, Repr

/-- `Map.prototype.set` on an insertion-ordered association list: overwrite
the value in place if the key is present, else append a new entry. -/
def mapSet {α : Type} (m : List (String × α)) (k : String) (v : α) :
    List (String × α) :=
  match m with
  | [] => [(k, v)]
  | (k', v') :: rest =>
    if k' = k then (k, v) :: rest else (k', v') :: mapSet rest k v

/-- The first pass of `detectUnusedFunctions` over one file: record function
declarations, then arrow/function-expression bindings, then method
definitions (skipping the keyword names), each via `Map.set`. -/
def collectDefinedIn (m0 : List (String × FnInfo)) (file : String)
    (content : List Char) : List (String × FnInfo) :=
  let m1 := (matchAllIn matchFnDecl content).foldl
    (fun m capIdx =>
      mapSet m capIdx.1.asString
        ⟨capIdx.1.asString, file, getLineNumber content capIdx.2, "function"⟩) m0
  let m2 := (matchAllIn matchArrowFn content).foldl
    (fun m capIdx =>
      mapSet m capIdx.1.asString
        ⟨capIdx.1.asString, file, getLineNumber content capIdx.2, "arrow"⟩) m1
  (matchAllIn matchMethod content).foldl
    (fun m capIdx =>
      if ["if", "for", "while", "switch", "catch"].contains capIdx.1.asString then m
      else
        mapSet m capIdx.1.asString
          ⟨capIdx.1.asString, file, getLineNumber content capIdx.2, "method"⟩) m2

/-- Shallow embedding of `UnusedCodeDetector.detectUnusedFunctions`
(src/lib/unused-code-detector.js:110-187): first pass collects the
`definedFunctions` map over all files; second pass marks a name used when the
call-site regex or the bare-reference regex fires in any file's content; the
entries of names never marked used are returned in map order. -/
def detectUnusedFunctions (files : List (String × String)) : List FnInfo :=
  let defined := files.foldl (fun m f => collectDefinedIn m f.1 f.2.data) []
  let used := fun (n : String) =>
    files.any (fun f => callTest f.2.data n.data || refTest f.2.data n.data)
  (defined.filter (fun kv => !used kv.1)).map (fun kv => kv.2)

/-! ### Babel AST model

Typed model of the babel AST node shapes the analysed code manipulates.
Lists and optional children are represented by the mutually defined
`NodeList` and `OptNode` so that every function on trees is structurally
recursive (and hence kernel-reducible).  Every node carries its `loc`
(start/end line), which is what the fingerprinting threshold reads. -/

structure Loc where
  startLine : Nat
  endLine : Nat
deriving DecidableEq, Repr

mutual
inductive Node where
  | ident (name : String) (loc : Loc)
  | numLit (value : Int) (loc : Loc)
  | strLit (value : String) (loc : Loc)
  | blockStmt (body : NodeList) (loc : Loc)
  | returnStmt (argument : OptNode) (loc : Loc)
  | binaryExpr (op : String) (left : Node) (right : Node) (loc : Loc)
  | callExpr (callee : Node) (args : NodeList) (loc : Loc)
  | memberExpr (object : Node) (property : Node) (loc : Loc)
  | functionDecl (id : Node) (params : NodeList) (body : Node) (loc : Loc)
  | functionExpr (params : NodeList) (body : Node) (loc : Loc)
  | arrowFnExpr (params : NodeList) (body : Node) (loc : Loc)
  | varDecl (kind : String) (decls : NodeList) (loc : Loc)
  | varDeclarator (id : Node) (init : OptNode) (loc : Loc)
  | classMethod (key : Node) (params : NodeList) (body : Node) (loc : Loc)
  | exprStmt (e : Node) (loc : Loc)
  | program (body : NodeList) (loc : Loc)
inductive OptNode where
  | none
  | some (n : Node)
inductive NodeList where
  | nil
  | cons (head : Node) (tail : NodeList)
end

/-- The `loc` field (every babel node has one). -/
def nodeLoc : Node → Loc
  | .ident _ l => l
  | .numLit _ l => l
  | .strLit _ l => l
  | .blockStmt _ l => l
  | .returnStmt _ l => l
  | .binaryExpr _ _ _ l => l
  | .callExpr _ _ l => l
  | .memberExpr _ _ l => l
  | .functionDecl _ _ _ l => l
  | .functionExpr _ _ l => l
  | .arrowFnExpr _ _ l => l
  | .varDecl _ _ l => l
  | .varDeclarator _ _ l => l
  | .classMethod _ _ _ l => l
  | .exprStmt _ l => l
  | .program _ l => l

/-! Mirror of `Node` after `UnusedCodeDetector.normalizeNode`
(src/lib/unused-code-detector.js:464-491): all position/comment metadata
(`loc`, `start`, `end`, comments) removed, and `name` nulled on
`Identifier` nodes.  All other fields are kept unchanged. -/
mutual
inductive NormNode where
  | ident
  | numLit (value : Int)
  | strLit (value : String)
  | blockStmt (body : NormList)
  | returnStmt (argument : OptNorm)
  | binaryExpr (op : String) (left : NormNode) (right : NormNode)
  | callExpr (callee : NormNode) (args : NormList)
  | memberExpr (object : NormNode) (property : NormNode)
  | functionDecl (id : NormNode) (params : NormList) (body : NormNode)
  | functionExpr (params : NormList) (body : NormNode)
  | arrowFnExpr (params : NormList) (body : NormNode)
  | varDecl (kind : String) (decls : NormList)
  | varDeclarator (id : NormNode) (init : OptNorm)
  | classMethod (key : NormNode) (params : NormList) (body : NormNode)
  | exprStmt (e : NormNode)
  | program (body : NormList)
inductive OptNorm where
  | none
  | some (n : NormNode)
inductive NormList where
  | nil
  | cons (head : NormNode) (tail : NormList)
end

/-! Shallow embedding of `UnusedCodeDetector.normalizeNode`. -/
mutual
def normalizeNode : Node → NormNode
  | .ident _ _ => .ident
  | .numLit v _ => .numLit v
  | .strLit v _ => .strLit v
  | .blockStmt body _ => .blockStmt (normalizeList body)
  | .returnStmt arg _ => .returnStmt (normalizeOpt arg)
  | .binaryExpr op l r _ => .binaryExpr op (normalizeNode l) (normalizeNode r)
  | .callExpr callee args _ => .callExpr (normalizeNode callee) (normalizeList args)
  | .memberExpr o p _ => .memberExpr (normalizeNode o) (normalizeNode p)
  | .functionDecl id params body _ =>
      .functionDecl (normalizeNode id) (normalizeList params) (normalizeNode body)
  | .functionExpr params body _ =>
      .functionExpr (normalizeList params) (normalizeNode body)
  | .arrowFnExpr params body _ =>
      .arrowFnExpr (normalizeList params) (normalizeNode body)
  | .varDecl kind decls _ => .varDecl kind (normalizeList decls)
  | .varDeclarator id init _ =>
      .varDeclarator (normalizeNode id) (normalizeOpt init)
  | .classMethod key params body _ =>
      .classMethod (normalizeNode key) (normalizeList params) (normalizeNode body)
  | .exprStmt e _ => .exprStmt (normalizeNode e)
  | .program body _ => .program (normalizeList body)
def normalizeOpt : OptNode → OptNorm
  | .none => .none
  | .some n => .some (normalizeNode n)
def normalizeList : NodeList → NormList
  | .nil => .nil
  | .cons h t => .cons (normalizeNode h) (normalizeList t)
end

/-! Canonical serialization of a normalized node, standing for
`JSON.stringify(normalizedBody)`.  The subsequent SHA-1 digest
(`hashNode`, src/lib/unused-code-detector.js:496-498) is modelled as the
serialization itself: every property under verification depends only on
the digest being a function of the normalized tree, not on its format. -/
mutual
def serializeNorm : NormNode → String
  | .ident => "(Identifier name:null)"
  | .numLit v => "(NumericLiteral " ++ toString v ++ ")"
  | .strLit v => "(StringLiteral " ++ v ++ ")"
  | .blockStmt body => "(BlockStatement " ++ serializeNormList body ++ ")"
  | .returnStmt arg => "(ReturnStatement " ++ serializeNormOpt arg ++ ")"
  | .binaryExpr op l r =>
      "(BinaryExpression " ++ op ++ " " ++ serializeNorm l ++ " " ++ serializeNorm r ++ ")"
  | .callExpr callee args =>
      "(CallExpression " ++ serializeNorm callee ++ " " ++ serializeNormList args ++ ")"
  | .memberExpr o p =>
      "(MemberExpression " ++ serializeNorm o ++ " " ++ serializeNorm p ++ ")"
  | .functionDecl id params body =>
      "(FunctionDeclaration " ++ serializeNorm id ++ " " ++ serializeNormList params
        ++ " " ++ serializeNorm body ++ ")"
  | .functionExpr params body =>
      "(FunctionExpression " ++ serializeNormList params ++ " " ++ serializeNorm body ++ ")"
  | .arrowFnExpr params body =>
      "(ArrowFunctionExpression " ++ serializeNormList params ++ " " ++ serializeNorm body ++ ")"
  | .varDecl kind decls =>
      "(VariableDeclaration " ++ kind ++ " " ++ serializeNormList decls ++ ")"
  | .varDeclarator id init =>
      "(VariableDeclarator " ++ serializeNorm id ++ " " ++ serializeNormOpt init ++ ")"
  | .classMethod key params body =>
      "(ClassMethod " ++ serializeNorm key ++ " " ++ serializeNormList params
        ++ " " ++ serializeNorm body ++ ")"
  | .exprStmt e => "(ExpressionStatement " ++ serializeNorm e ++ ")"
  | .program body => "(Program " ++ serializeNormList body ++ ")"
def serializeNormOpt : OptNorm → String
  | .none => "null"
  | .some n => serializeNorm n
def serializeNormList : NormList → String
  | .nil => ""
  | .cons h t => serializeNorm h ++ "," ++ serializeNormList t
end

/-- `hashNode(JSON.stringify(this.normalizeNode(node)))` — the fingerprint
digest of a subtree. -/
def fingerprintHash (n : Node) : String :=
  serializeNorm (normalizeNode n)

/-- One entry of a `DuplicateGroup.locations` list:
`{ file, startLine, endLine }` (file already made project-relative). -/
structure DupLocation where
  file : String
  startLine : Nat
  endLine : Nat
deriving DecidableEq, Repr

/-- A fingerprint record before grouping: digest plus location. -/
abbrev FpEntry := String × DupLocation

/-- The function-body test of `detectDuplicateCode`
(src/lib/unused-code-detector.js:394-414): the visitor fires on
`FunctionDeclaration`, `FunctionExpression` and `ArrowFunctionExpression`
nodes, and fingerprints the body iff it exists, is a `BlockStatement`, and
`body.loc.end.line - body.loc.start.line > 3`.  The recorded location uses
the function node's own `loc`.  `fnBodyOf` is the `node.body` access of the
three function node kinds. -/
def fnBodyOf : Node → Option Node
  | .functionDecl _ _ body _ => Option.some body
  | .functionExpr _ body _ => Option.some body
  | .arrowFnExpr _ body _ => Option.some body
  | _ => Option.none

def fingerprintEntry? (file : String) (n : Node) : Option FpEntry :=
  match fnBodyOf n with
  | Option.some b =>
    match b with
    | .blockStmt _ bloc =>
      if 3 < bloc.endLine - bloc.startLine then
        Option.some (fingerprintHash b,
          ⟨file, (nodeLoc n).startLine, (nodeLoc n).endLine⟩)
      else Option.none
    | _ => Option.none
  | Option.none => Option.none

/-! The recursive `this.traverse(ast, visitor)` helper
(src/lib/unused-code-detector.js:445-459): visit the node, then visit all
children.  Specialized to the duplicate-code visitor: collect the
fingerprint entries in visit order. -/
mutual
def collectEntries (file : String) : Node → List FpEntry
  | n@(.ident _ _) => (fingerprintEntry? file n).toList
  | n@(.numLit _ _) => (fingerprintEntry? file n).toList
  | n@(.strLit _ _) => (fingerprintEntry? file n).toList
  | n@(.blockStmt body _) =>
      (fingerprintEntry? file n).toList ++ collectEntriesL file body
  | n@(.returnStmt arg _) =>
      (fingerprintEntry? file n).toList ++ collectEntriesO file arg
  | n@(.binaryExpr _ l r _) =>
      (fingerprintEntry? file n).toList ++ (collectEntries file l ++ collectEntries file r)
  | n@(.callExpr callee args _) =>
      (fingerprintEntry? file n).toList
        ++ (collectEntries file callee ++ collectEntriesL file args)
  | n@(.memberExpr o p _) =>
      (fingerprintEntry? file n).toList ++ (collectEntries file o ++ collectEntries file p)
  | n@(.functionDecl id params body _) =>
      (fingerprintEntry? file n).toList
        ++ (collectEntries file id ++ (collectEntriesL file params ++ collectEntries file body))
  | n@(.functionExpr params body _) =>
      (fingerprintEntry? file n).toList
        ++ (collectEntriesL file params ++ collectEntries file body)
  | n@(.arrowFnExpr params body _) =>
      (fingerprintEntry? file n).toList
        ++ (collectEntriesL file params ++ collectEntries file body)
  | n@(.varDecl _ decls _) =>
      (fingerprintEntry? file n).toList ++ collectEntriesL file decls
  | n@(.varDeclarator id init _) =>
      (fingerprintEntry? file n).toList
        ++ (collectEntries file id ++ collectEntriesO file init)
  | n@(.classMethod key params body _) =>
      (fingerprintEntry? file n).toList
        ++ (collectEntries file key ++ (collectEntriesL file params ++ collectEntries file body))
  | n@(.exprStmt e _) =>
      (fingerprintEntry? file n).toList ++ collectEntries file e
  | n@(.program body _) =>
      (fingerprintEntry? file n).toList ++ collectEntriesL file body
def collectEntriesO (file : String) : OptNode → List FpEntry
  | .none => []
  | .some n => collectEntries file n
def collectEntriesL (file : String) : NodeList → List FpEntry
  | .nil => []
  | .cons h t => collectEntries file h ++ collectEntriesL file t
end

/-! Pre-order node enumeration of the same traversal, used to state what
`collectEntries` visits. -/
mutual
def preorderN : Node → List Node
  | n@(.ident _ _) => [n]
  | n@(.numLit _ _) => [n]
  | n@(.strLit _ _) => [n]
  | n@(.blockStmt body _) => n :: preorderL body
  | n@(.returnStmt arg _) => n :: preorderO arg
  | n@(.binaryExpr _ l r _) => n :: (preorderN l ++ preorderN r)
  | n@(.callExpr callee args _) => n :: (preorderN callee ++ preorderL args)
  | n@(.memberExpr o p _) => n :: (preorderN o ++ preorderN p)
  | n@(.functionDecl id params body _) =>
      n :: (preorderN id ++ (preorderL params ++ preorderN body))
  | n@(.functionExpr params body _) => n :: (preorderL params ++ preorderN body)
  | n@(.arrowFnExpr params body _) => n :: (preorderL params ++ preorderN body)
  | n@(.varDecl _ decls _) => n :: preorderL decls
  | n@(.varDeclarator id init _) => n :: (preorderN id ++ preorderO init)
  | n@(.classMethod key params body _) =>
      n :: (preorderN key ++ (preorderL params ++ preorderN body))
  | n@(.exprStmt e _) => n :: preorderN e
  | n@(.program body _) => n :: preorderL body
def preorderO : OptNode → List Node
  | .none => []
  | .some n => preorderN n
def preorderL : NodeList → List Node
  | .nil => []
  | .cons h t => preorderN h ++ preorderL t
end

/-- All fingerprint entries of a run over the (successfully parsed) input
files, in file order. -/
def fingerprintEntries (files : List (String × Node)) : List FpEntry :=
  files.flatMap (fun f => collectEntries f.1 f.2)

/-- Recording one fingerprint entry into the `functionHashes` map
(`Map<hash, {block, locations}>`): push the location onto an existing
entry, else insert a fresh entry (at the end — JS `Map` preserves insertion
order).  The `block` exemplar text does not influence grouping and is not
modelled. -/
def addEntry (m : List (String × List DupLocation)) (e : FpEntry) :
    List (String × List DupLocation) :=
  match m with
  | [] => [(e.1, [e.2])]
  | (h, locs) :: rest =>
    if h = e.1 then (h, locs ++ [e.2]) :: rest else (h, locs) :: addEntry rest e

/-- The `functionHashes` map after all files are indexed. -/
def buildHashMap (es : List FpEntry) : List (String × List DupLocation) :=
  es.foldl addEntry []

/-- One reported duplicate group: `{ locations, duplicateCount }` (the
`block` summary is presentation-only and not modelled). -/
structure DuplicateGroup where
  locations : List DupLocation
  duplicateCount : Nat
deriving DecidableEq, Repr

/-- The final pass over `functionHashes`: keep the groups with more than
one recorded location (`data.locations.length > 1`), reporting
`{ locations, duplicateCount: locations.length }`. -/
def dupGroupsOf (es : List FpEntry) : List DuplicateGroup :=
  (buildHashMap es).filterMap
    (fun hl => if 1 < hl.2.length then Option.some ⟨hl.2, hl.2.length⟩ else Option.none)

/-- Shallow embedding of `UnusedCodeDetector.detectDuplicateCode`
(src/lib/unused-code-detector.js:381-440) on already-parsed files: index
every file's fingerprintable function bodies, then keep the hash groups
with more than one recorded location. -/
def detectDuplicateCode (files : List (String × Node)) : List DuplicateGroup :=
  dupGroupsOf (fingerprintEntries files)

/-- First-match association lookup in the `functionHashes` map, returning
the recorded locations (empty when absent). -/
def lookupLocs (m : List (String × List DupLocation)) (h : String) :
    List DupLocation :=
  match m with
  | [] => []
  | (k, locs) :: rest => if k = h then locs else lookupLocs rest h

/-! ### `detectUnusedIpcHandlers` (src/lib/unused-code-detector.js:598-658)

The traversal callback only inspects `CallExpression` nodes whose callee is
a `MemberExpression` of two identifiers and whose first argument may be a
string literal, so a parsed file is modelled as the list of its call
expressions in traversal order, reduced to those fields. -/

/-- One `CallExpression` as the IPC detector sees it: the callee's object
and property identifier names (empty strings standing for callees of any
other shape, which match neither test) and the value of the first argument
when that argument is a `StringLiteral`. -/
structure CallSite where
  obj : String
  prop : String
  firstArgLit : Option String
  line : Nat
deriving DecidableEq, Repr

/-- One input file: its path and, when `getAstFromFile` succeeded, its call
expressions; `Option.none` models a `null` return (parse/read failure), in
which case the detector `continue`s past the file. -/
structure IpcFile where
  path : String
  calls : Option (List CallSite)
deriving DecidableEq, Repr

/-- One entry of the `definedHandlers` map. -/
structure HandlerInfo where
  name : String
  file : String
  line : Nat
deriving DecidableEq, Repr

/-- The `ipcMain.handle('channel', ...)` test, including the string-literal
first-argument requirement. -/
def isHandleCall (c : CallSite) : Bool :=
  c.obj == "ipcMain" && c.prop == "handle" && c.firstArgLit.isSome

/-- The `ipcRenderer.invoke('channel', ...)` test. -/
def isInvokeCall (c : CallSite) : Bool :=
  c.obj == "ipcRenderer" && c.prop == "invoke" && c.firstArgLit.isSome

/-- Processing of one call site: record handler registrations in the
`definedHandlers` map (`Map.set`), record invocations in the
`invokedChannels` set (modelled as the list of added names; only membership
is ever read). -/
def scanCall (file : String)
    (acc : List (String × HandlerInfo) × List String) (c : CallSite) :
    List (String × HandlerInfo) × List String :=
  let acc1 :=
    match c.firstArgLit with
    | Option.some ch =>
      if c.obj == "ipcMain" && c.prop == "handle" then
        (mapSet acc.1 ch ⟨ch, file, c.line⟩, acc.2)
      else acc
    | Option.none => acc
  match c.firstArgLit with
  | Option.some ch =>
    if c.obj == "ipcRenderer" && c.prop == "invoke" then
      (acc1.1, acc1.2 ++ [ch])
    else acc1
  | Option.none => acc1

/-- Traversal of all files, accumulating `definedHandlers` and
`invokedChannels`; unparseable files are skipped. -/
def scanIpcFiles (files : List IpcFile) :
    List (String × HandlerInfo) × List String :=
  files.foldl
    (fun acc f =>
      match f.calls with
      | Option.none => acc
      | Option.some cs => cs.foldl (scanCall f.path) acc)
    ([], [])

/-- Shallow embedding of `UnusedCodeDetector.detectUnusedIpcHandlers`:
every channel in the `definedHandlers` map with no entry in
`invokedChannels` is reported, in map insertion order. -/
def detectUnusedIpcHandlers (files : List IpcFile) : List HandlerInfo :=
  let scanned := scanIpcFiles files
  (scanned.1.filter (fun kv => !scanned.2.contains kv.1)).map (fun kv => kv.2)

/-- All `Defined` channel facts of the project: one per
`ipcMain.handle` registration with a string-literal first argument, in
traversal order (not deduplicated). -/
def definedChannelFacts (files : List IpcFile) : List String :=
  files.flatMap (fun f =>
    match f.calls with
    | Option.none => []
    | Option.some cs =>
      cs.filterMap (fun c =>
        if c.obj == "ipcMain" && c.prop == "handle" then c.firstArgLit
        else Option.none))

/-- All `Invoked` channel facts of the project. -/
def invokedChannelFacts (files : List IpcFile) : List String :=
  files.flatMap (fun f =>
    match f.calls with
    | Option.none => []
    | Option.some cs =>
      cs.filterMap (fun c =>
        if c.obj == "ipcRenderer" && c.prop == "invoke" then c.firstArgLit
        else Option.none))

/-! ### The Safe Mutator (src/lib/safe-code-surgeon.js)

`SafeCodeSurgeon.safeModifyFile` is embedded as a pure function of the
file's on-disk content, the mutable surgeon state (statistics and the
`errors` list), and oracles for the external effects: babel `parse`
(which either yields a tree or throws), the modification callback, babel
`generate` (code or `null` on an internal throw), `new Function(code)`
and `node --check` for syntax validation.  File-system writes are
represented by the `disk`/`wrote` fields of the result. -/

/-- One entry of `this.errors`: `{ file, error, type }`. -/
structure ErrorEntry where
  file : String
  error : String
  kind : String
deriving DecidableEq, Repr

/-- `this.statistics` of `SafeCodeSurgeon`. -/
structure Statistics where
  filesAnalyzed : Nat
  filesModified : Nat
  filesSkipped : Nat
  syntaxErrors : Nat
  modificationsAttempted : Nat
  modificationsSuccessful : Nat
  modificationsFailed : Nat
  validationsFailed : Nat
deriving DecidableEq, Repr

/-- The statistics object initialized by the constructor. -/
def initStatistics : Statistics := ⟨0, 0, 0, 0, 0, 0, 0, 0⟩

/-- The surgeon's mutable state: statistics plus the `errors` list. -/
structure SurgeonState where
  statistics : Statistics
  errors : List ErrorEntry
deriving DecidableEq, Repr

/-- The clean state right after construction. -/
def initSurgeonState : SurgeonState := ⟨initStatistics, []⟩

/-- The resolved constructor options (src/lib/safe-code-surgeon.js:14-24)
relevant to the mutation pipeline.  (`options.validateSyntax` is named
`validateSyntaxFlag` here for technical reasons.) -/
structure SurgeonOptions where
  validateSyntaxFlag : Bool
  dryRun : Bool
  conservative : Bool
  maxChangesPerFile : Nat
deriving DecidableEq, Repr

/-- The constructor's defaulting:
`validateSyntax: options.validateSyntax !== false`,
`dryRun: options.dryRun || false`,
`conservative: options.conservative !== false`,
`maxChangesPerFile: options.maxChangesPerFile || 10` (`0` is falsy and also
falls back to 10). -/
def mkSurgeonOptions (validateSyntaxOpt dryRunOpt conservativeOpt : Option Bool)
    (maxChangesOpt : Option Nat) : SurgeonOptions :=
  ⟨validateSyntaxOpt != Option.some false,
   dryRunOpt.getD false,
   conservativeOpt != Option.some false,
   match maxChangesOpt with
   | Option.none => 10
   | Option.some n => if n = 0 then 10 else n⟩

/-- Append an entry to `this.errors` (`Array.prototype.push`). -/
def pushError (st : SurgeonState) (e : ErrorEntry) : SurgeonState :=
  ⟨st.statistics, st.errors ++ [e]⟩

def incFilesAnalyzed (st : SurgeonState) : SurgeonState :=
  ⟨{ st.statistics with filesAnalyzed := st.statistics.filesAnalyzed + 1 }, st.errors⟩

def incFilesSkipped (st : SurgeonState) : SurgeonState :=
  ⟨{ st.statistics with filesSkipped := st.statistics.filesSkipped + 1 }, st.errors⟩

def incFilesModified (st : SurgeonState) : SurgeonState :=
  ⟨{ st.statistics with filesModified := st.statistics.filesModified + 1 }, st.errors⟩

def incModSuccessful (st : SurgeonState) : SurgeonState :=
  ⟨{ st.statistics with
      modificationsSuccessful := st.statistics.modificationsSuccessful + 1 }, st.errors⟩

def incModFailed (st : SurgeonState) : SurgeonState :=
  ⟨{ st.statistics with
      modificationsFailed := st.statistics.modificationsFailed + 1 }, st.errors⟩

def incValidationsFailed (st : SurgeonState) : SurgeonState :=
  ⟨{ st.statistics with
      validationsFailed := st.statistics.validationsFailed + 1 }, st.errors⟩

/-- What the modification callback handed to `safeModifyFile` can do:
throw, return `null`/the unchanged input object (the
`!modifiedAst || modifiedAst === ast` test — both mean "no changes made"),
or return a modified tree. -/
inductive ModRet (Ast : Type) where
  | thrown (msg : String)
  | sameOrNull
  | newAst (a : Ast)

/-- `SafeCodeSurgeon.parseCode` (lines 43-68): babel parse; on a thrown
parse error, push `{file, 'Parse error: …', 'parse_error'}` and return
`null`. -/
def parseCode {Ast : Type} (parseFn : String → Except String Ast)
    (st : SurgeonState) (code filePath : String) : Option Ast × SurgeonState :=
  match parseFn code with
  | .ok a => (Option.some a, st)
  | .error m =>
      (Option.none, pushError st ⟨filePath, "Parse error: " ++ m, "parse_error"⟩)

/-- The boolean outcome of `SafeCodeSurgeon.validateSyntax` (lines 91-124):
disabled validation always passes; otherwise `new Function(code)` is tried
first and `node --check` (on a temp file) second.  The temp-file write is
modelled as succeeding; only the `node --check` failure records an error. -/
def validationOk (opts : SurgeonOptions) (newFnOk : String → Bool)
    (nodeCheck : String → Except String Unit) (code : String) : Bool :=
  if !opts.validateSyntaxFlag then true
  else if newFnOk code then true
  else
    match nodeCheck code with
    | .ok _ => true
    | .error _ => false

/-- `SafeCodeSurgeon.validateSyntax` with its error-recording side effect:
a `node --check` failure pushes
`{file, 'Syntax validation failed: …', 'syntax_error'}`. -/
def validateSyntaxFn (opts : SurgeonOptions) (newFnOk : String → Bool)
    (nodeCheck : String → Except String Unit) (st : SurgeonState)
    (code filePath : String) : Bool × SurgeonState :=
  if !opts.validateSyntaxFlag then (true, st)
  else if newFnOk code then (true, st)
  else
    match nodeCheck code with
    | .ok _ => (true, st)
    | .error m =>
        (false,
         pushError st ⟨filePath, "Syntax validation failed: " ++ m, "syntax_error"⟩)

/-- `content.split('\n').length`: for the non-empty single-character
separator, the number of parts is the number of `'\n'` occurrences plus
one (also for the empty string, where JS yields `[""]`). -/
def countLines (s : String) : Nat :=
  (s.data.filter (fun c => c = '\n')).length + 1

/-- How one `safeModifyFile` call exited. -/
inductive MutationOutcome where
  | skippedParse
  | noChanges
  | generationFailed
  | validationFailed
  | tooAggressive
  | committed
  | modificationError (msg : String)
deriving DecidableEq, Repr

/-- The observable result of one `safeModifyFile` call: the surgeon state
afterwards, the target file's on-disk content afterwards, whether
`fs.writeFileSync(filePath, …)` ran, the returned boolean, and the exit
taken. -/
structure ModifyResult where
  state : SurgeonState
  disk : String
  wrote : Bool
  returned : Bool
  outcome : MutationOutcome

/-- Shallow embedding of `SafeCodeSurgeon.safeModifyFile`
(src/lib/safe-code-surgeon.js:129-202).  The pipeline: parse (skip on
failure) → apply the modification callback (`null` or the identical object
means no changes; a throw is caught, recorded as a `modification_error` and
counted as a failed modification) → generate (in memory; `null` counts a
failed modification) → validate syntax → conservative line-reduction check
(`lineReduction > linesBefore * 0.3`, exact over the integers as
`10*lineReduction > 3*linesBefore`) → write unless dry-run.  The single
`fs.writeFileSync` on the target file is the only write modelled. -/
def safeModifyFile {Ast : Type} (opts : SurgeonOptions)
    (parseFn : String → Except String Ast) (modFn : Ast → ModRet Ast)
    (genFn : Ast → Option String) (newFnOk : String → Bool)
    (nodeCheck : String → Except String Unit)
    (st0 : SurgeonState) (filePath diskContent : String) : ModifyResult :=
  let st := incFilesAnalyzed st0
  match parseCode parseFn st diskContent filePath with
  | (Option.none, st1) =>
      ⟨incFilesSkipped st1, diskContent, false, false, .skippedParse⟩
  | (Option.some ast, st1) =>
    match modFn ast with
    | .thrown m =>
        ⟨incModFailed (pushError st1 ⟨filePath, m, "modification_error"⟩),
         diskContent, false, false, .modificationError m⟩
    | .sameOrNull => ⟨st1, diskContent, false, false, .noChanges⟩
    | .newAst a =>
      match genFn a with
      | Option.none =>
          ⟨incModFailed st1, diskContent, false, false, .generationFailed⟩
      | Option.some newContent =>
        match validateSyntaxFn opts newFnOk nodeCheck st1 newContent filePath with
        | (false, st2) =>
            ⟨incValidationsFailed st2, diskContent, false, false, .validationFailed⟩
        | (true, st2) =>
          let linesBefore : Int := countLines diskContent
          let linesAfter : Int := countLines newContent
          let lineReduction : Int := linesBefore - linesAfter
          if opts.conservative && decide (10 * lineReduction > 3 * linesBefore) then
            ⟨st2, diskContent, false, false, .tooAggressive⟩
          else
            let st3 := incFilesModified (incModSuccessful st2)
            if opts.dryRun then ⟨st3, diskContent, false, true, .committed⟩
            else ⟨st3, newContent, true, true, .committed⟩

/-- The fields of the report produced by
`SafeCodeSurgeon.generateSafetyReport` (src/lib/safe-code-surgeon.js:447-479)
that the claims under verification concern (`safety`, `summary` and
`recommendations` are derived presentation data). -/
structure SafetyReport where
  success : Bool
  mode : String
  statistics : Statistics
  errors : List ErrorEntry
deriving DecidableEq, Repr

/-- Shallow embedding of `generateSafetyReport`:
`success: this.statistics.modificationsFailed === 0 && this.errors.length === 0`. -/
def generateSafetyReport (opts : SurgeonOptions) (st : SurgeonState) :
    SafetyReport :=
  ⟨st.statistics.modificationsFailed == 0 && st.errors.length == 0,
   if opts.dryRun then "DRY_RUN" else "LIVE",
   st.statistics, st.errors⟩

/-! ### `removeUnusedFunctions` (src/lib/safe-code-surgeon.js:207-263)

The modification callback passed to `safeModifyFile` calls
`traverse(ast, { FunctionDeclaration(path) {…}, VariableDeclarator(path)
{…}, ClassMethod(path) {…} })` — shorthand method visitors, and no
traversal state.  babel-traverse invokes each visitor with `this` bound to
that (undefined) state; in this sloppy-mode CommonJS module `this` then
coerces to `globalThis`, whose `options` property is undefined, so the
budget conjunct `changeCount < this.options.maxChangesPerFile` throws
`TypeError: Cannot read properties of undefined (reading
'maxChangesPerFile')` the moment the name-match conjuncts before it hold.
In each visitor the name-match conjuncts (`functionNames.has(…)`, plus the
`Identifier`/function-initializer type tests for `VariableDeclarator` and
the `Identifier` key test for `ClassMethod`) are evaluated first, so the
callback throws exactly when the tree contains at least one matching
target node — and since no `path.remove()` is ever reached, the traversal
visits every node, and on a tree without a matching node it finishes with
`modified` still false and returns `null`. -/

/-- `functionNames.has(node.id.name)` for an (expected) `Identifier`. -/
def identIs (targets : List String) : Node → Bool
  | .ident nm _ => targets.contains nm
  | _ => false

/-- `t.isFunctionExpression(init) || t.isArrowFunctionExpression(init)`. -/
def isFnInit : OptNode → Bool
  | .some (.functionExpr _ _ _) => true
  | .some (.arrowFnExpr _ _ _) => true
  | _ => false

/-- The `VariableDeclarator` visitor's removal condition (sans budget). -/
def declMatch (targets : List String) (id : Node) (init : OptNode) : Bool :=
  identIs targets id && isFnInit init

/-! Number of removable target nodes in a subtree: matching function
declarations, matching function-valued declarators, matching class
methods — each counted once, nested occurrences included. -/
mutual
def countTargetsN (targets : List String) : Node → Nat
  | .ident _ _ => 0
  | .numLit _ _ => 0
  | .strLit _ _ => 0
  | .blockStmt body _ => countTargetsL targets body
  | .returnStmt arg _ => countTargetsO targets arg
  | .binaryExpr _ l r _ => countTargetsN targets l + countTargetsN targets r
  | .callExpr callee args _ => countTargetsN targets callee + countTargetsL targets args
  | .memberExpr o p _ => countTargetsN targets o + countTargetsN targets p
  | .functionDecl id params body _ =>
      (if identIs targets id then 1 else 0)
        + (countTargetsN targets id
            + (countTargetsL targets params + countTargetsN targets body))
  | .functionExpr params body _ =>
      countTargetsL targets params + countTargetsN targets body
  | .arrowFnExpr params body _ =>
      countTargetsL targets params + countTargetsN targets body
  | .varDecl _ decls _ => countTargetsL targets decls
  | .varDeclarator id init _ =>
      (if declMatch targets id init then 1 else 0)
        + (countTargetsN targets id + countTargetsO targets init)
  | .classMethod key params body _ =>
      (if identIs targets key then 1 else 0)
        + (countTargetsN targets key
            + (countTargetsL targets params + countTargetsN targets body))
  | .exprStmt e _ => countTargetsN targets e
  | .program body _ => countTargetsL targets body
def countTargetsO (targets : List String) : OptNode → Nat
  | .none => 0
  | .some n => countTargetsN targets n
def countTargetsL (targets : List String) : NodeList → Nat
  | .nil => 0
  | .cons h t => countTargetsN targets h + countTargetsL targets t
end

/-- The message of the `TypeError` thrown when a visitor's budget conjunct
dereferences `maxChangesPerFile` off the undefined `this.options`. -/
def budgetTypeErrorMsg : String :=
  "Cannot read properties of undefined (reading 'maxChangesPerFile')"

/-- The modification callback of `removeUnusedFunctions`, as it actually
executes: the first node the traversal visits whose name-match conjuncts
hold reaches `this.options.maxChangesPerFile` and throws the `TypeError`
(so the callback throws exactly when the tree contains a matching target
node, i.e. when `countTargetsN` is positive); otherwise the traversal
completes without any removal and the callback returns
`modified ? ast : null` with `modified` still `false`, i.e. `null`. -/
def removeUnusedCallback (targets : List String) (ast : Node) : ModRet Node :=
  if 0 < countTargetsN targets ast then ModRet.thrown budgetTypeErrorMsg
  else ModRet.sameOrNull

/-! ### Supporting definitions for the IPC cross-reference count -/

/-- The `Defined` fact a call site contributes, if any: the channel paired
with the `HandlerInfo` the detector would store for it. -/
def handleEvent? (path : String) (c : CallSite) : Option (String × HandlerInfo) :=
  match c.firstArgLit with
  | Option.some ch =>
    if c.obj == "ipcMain" && c.prop == "handle" then
      Option.some (ch, ⟨ch, path, c.line⟩)
    else Option.none
  | Option.none => Option.none

/-- The `Invoked` fact a call site contributes, if any. -/
def invokeEvent? (c : CallSite) : Option String :=
  match c.firstArgLit with
  | Option.some ch =>
    if c.obj == "ipcRenderer" && c.prop == "invoke" then Option.some ch
    else Option.none
  | Option.none => Option.none

/-- All `Defined` facts with their stored handler records, in traversal
order. -/
def handlePairs (files : List IpcFile) : List (String × HandlerInfo) :=
  files.flatMap (fun f =>
    match f.calls with
    | Option.none => []
    | Option.some cs => cs.filterMap (handleEvent? f.path))

/-- The Scenario-A project: one file whose whole content is
`function foo(){ return 1; }`. -/
def c3content : String := "function foo()\x7b return 1; \x7d"

/-- An input with two registrations of the same channel name,
`ipcMain.handle('save-file', …)` on two lines and no invocation
anywhere. -/
def c5dupFiles : List IpcFile :=
  [⟨"main.js",
    Option.some
      [⟨"ipcMain", "handle", Option.some "save-file", 3⟩,
       ⟨"ipcMain", "handle", Option.some "save-file", 9⟩]⟩]

/-- Two distinct defined channels, one of them invoked. -/
def c5okFiles : List IpcFile :=
  [⟨"main.js",
    Option.some
      [⟨"ipcMain", "handle", Option.some "ping", 2⟩,
       ⟨"ipcMain", "handle", Option.some "pong", 4⟩]⟩,
   ⟨"renderer.js", Option.some [⟨"ipcRenderer", "invoke", Option.some "ping", 7⟩]⟩]

/-- Options as built by `new SafeCodeSurgeon({})`: every default. -/
def defaultSurgeonOptions : SurgeonOptions :=
  mkSurgeonOptions Option.none Option.none Option.none Option.none

/-- Ten lines of pre-run content for the conservative-check witnesses. -/
def disk10 : String := "a\nb\nc\nd\ne\nf\ng\nh\ni\nj"

/-- Generated result with 7 lines: reduction 3 of 10, within the 30%
threshold. -/
def gen7 : String := "a\nb\nc\nd\ne\nf\ng"

/-- Generated result with 6 lines: reduction 4 of 10, over the 30%
threshold. -/
def gen6 : String := "a\nb\nc\nd\ne\nf"

/-- `function f(x){ return x + 1; }`, body block spanning lines 1-6. -/
def c4bodyF : Node :=
  .blockStmt
    (.cons
      (.returnStmt
        (.some (.binaryExpr "+" (.ident "x" ⟨3, 3⟩) (.numLit 1 ⟨3, 3⟩) ⟨3, 3⟩))
        ⟨3, 3⟩)
      .nil)
    ⟨1, 6⟩

def c4fnF : Node :=
  .functionDecl (.ident "f" ⟨1, 1⟩) (.cons (.ident "x" ⟨1, 1⟩) .nil) c4bodyF ⟨1, 6⟩

/-- `const g = function (y) { return y + 1; }`-style body, structurally the
same block with every identifier renamed and at other lines (2-7). -/
def c4bodyG : Node :=
  .blockStmt
    (.cons
      (.returnStmt
        (.some (.binaryExpr "+" (.ident "y" ⟨4, 4⟩) (.numLit 1 ⟨4, 4⟩) ⟨4, 4⟩))
        ⟨4, 4⟩)
      .nil)
    ⟨2, 7⟩

def c4fnG : Node :=
  .functionExpr (.cons (.ident "y" ⟨2, 2⟩) .nil) c4bodyG ⟨2, 7⟩

def c4files : List (String × Node) :=
  [("a.js", .program (.cons c4fnF .nil) ⟨1, 6⟩),
   ("b.js", .program (.cons (.exprStmt c4fnG ⟨2, 7⟩) .nil) ⟨2, 7⟩)]

/-- An arrow function with a concise (expression) body spanning lines
1-10. -/
def c7arrow : Node := .arrowFnExpr .nil (.numLit 1 ⟨1, 10⟩) ⟨1, 10⟩

/-- A file consisting of that arrow function. -/
def c7prog : Node := .program (.cons (.exprStmt c7arrow ⟨1, 10⟩) .nil) ⟨1, 10⟩

/-- Targets for the `C6` failing input. -/
def c6targets : List String := ["f", "g", "h"]

/-- On-disk source text of the `C6` failing input (what the embedded parse
oracle maps to `c6prog`). -/
def c6disk : String :=
  "function f() \x7b \x7d\nfunction g() \x7b \x7d\nconst h = () => 1;\n"

/-- A program with three removable targets: two function declarations and
one arrow-function binding. -/
def c6prog : Node :=
  .program
    (.cons (.functionDecl (.ident "f" ⟨1, 1⟩) .nil (.blockStmt .nil ⟨1, 2⟩) ⟨1, 2⟩)
      (.cons (.functionDecl (.ident "g" ⟨3, 3⟩) .nil (.blockStmt .nil ⟨3, 4⟩) ⟨3, 4⟩)
        (.cons
          (.varDecl "const"
            (.cons
              (.varDeclarator (.ident "h" ⟨5, 5⟩)
                (.some (.arrowFnExpr .nil (.numLit 1 ⟨5, 5⟩) ⟨5, 5⟩)) ⟨5, 5⟩)
              .nil)
            ⟨5, 5⟩)
          .nil)))
    ⟨1, 5⟩

/-! ### Whole-word occurrences as a positional predicate

`prevAt`, `OccAt` and `TwoOcc` express, directly over the subject text,
what it means for an identifier to occur as a `\b`-delimited whole word at
a given position, and at two disjoint positions.  They are the
spec-side reading of "occurs as a whole word more than once", proved
below equivalent to the scanner's match count. -/

/-- The character immediately left of the position that splits off the
prefix `u`: the last character of `u`, or the outer left context `p0` when
`u` is empty. -/
def prevAt (p0 : Option Char) (u : List Char) : Option Char :=
  match u.getLast? with
  | some c => some c
  | none => p0

/-- `ident` occurs as a whole word (a `\b` boundary on each side) at the
position that splits `s` into `u ++ ident ++ rest`; `p0` is the character
just left of `s` (`none` at a string start). -/
def OccAt (ident : List Char) (p0 : Option Char) (s u rest : List Char) : Prop :=
  s = u ++ ident ++ rest ∧
  wordBoundary (prevAt p0 u) ident.head? = true ∧
  wordBoundary ident.getLast? rest.head? = true

/-- `ident` occurs as a whole word at two disjoint positions of `s`: once
splitting `s` as `u ++ ident ++ rest`, and once more inside `rest` (whose
left context is then the last character of `ident`). -/
def TwoOcc (ident : List Char) (p0 : Option Char) (s : List Char) : Prop :=
  ∃ u rest, OccAt ident p0 s u rest ∧
    ∃ u2 v, OccAt ident ident.getLast? rest u2 v

end ECD

namespace ECD


theorem charsMatch_length {p s r : List Char} (h : charsMatch p s = some r) :
    r.length + p.length = s.length := by
  induction p generalizing s with
  | nil => simp [charsMatch] at h; simp [h]
  | cons p ps ih =>
    cases s with
    | nil => simp [charsMatch] at h
    | cons c cs =>
      simp only [charsMatch] at h
      by_cases hc : c = p
      · simp [hc] at h
        have := ih h
        simp [List.length_cons]; omega
      · simp [hc] at h

theorem charsMatch_self (p extra : List Char) :
    charsMatch p (p ++ extra) = some extra := by
  induction p with
  | nil => simp [charsMatch]
  | cons c cs ih => simp [charsMatch, ih]

theorem wordMatchAt_length {ident : List Char} {prev : Option Char}
    {s r : List Char} (h : wordMatchAt ident prev s = some r) :
    r.length + ident.length = s.length := by
  unfold wordMatchAt at h
  by_cases hb : wordBoundary prev s.head?
  · simp only [hb, if_true] at h
    cases hm : charsMatch ident s with
    | none => rw [hm] at h; exact absurd h (by simp)
    | some rest =>
      rw [hm] at h
      by_cases hb2 : wordBoundary ident.getLast? rest.head?
      · simp [hb2] at h; subst h; exact charsMatch_length hm
      · simp [hb2] at h
  · simp [hb] at h

theorem wordMatchScan_fuel {ident : List Char} {f g : Nat} {prev : Option Char}
    {s : List Char} (hf : s.length < f) (hg : s.length < g) :
    wordMatchScan ident f prev s = wordMatchScan ident g prev s := by
  induction f generalizing g prev s with
  | zero => omega
  | succ f ih =>
    cases g with
    | zero => omega
    | succ g =>
      simp only [wordMatchScan]
      by_cases hid : ident = []
      · simp [hid]
      · simp only [hid, if_false]
        cases hm : wordMatchAt ident prev s with
        | some rest =>
          have hlen := wordMatchAt_length hm
          have hidlen : ident.length ≠ 0 := by
            intro h0; exact hid (List.length_eq_zero.mp h0)
          have h1 : rest.length < f := by omega
          have h2 : rest.length < g := by omega
          show ident :: wordMatchScan ident f ident.getLast? rest
              = ident :: wordMatchScan ident g ident.getLast? rest
          rw [ih h1 h2]
        | none =>
          cases s with
          | nil => rfl
          | cons c cs =>
            simp only [List.length_cons] at hf hg
            exact ih (by omega) (by omega)

/-! ## Theorems -/

section C3

/-- **C3** — evaluation of `detectUnusedFunctions` at the claim's own test
project.  The first pass does record `foo` in `definedFunctions`, and the
usage pass then marks `foo` used: the call-site regex `\bfoo\s*\(` fires on
the declaration's own header text `foo(`, so the declaration counts as its
own usage and zero `UnusedFunction` issues are emitted (the claim expects
exactly one). -/
theorem claim_c3_code_evaluation :
    (collectDefinedIn [] "only.js" c3content.data).map Prod.fst = ["foo"] ∧
    callTest c3content.data "foo".data = true ∧
    detectUnusedFunctions [("only.js", c3content)] = [] :=
  ⟨rfl, rfl, rfl⟩

end C3

section C5

theorem length_filter_not {α : Type} (l : List α) (p : α → Bool) :
    (l.filter (fun x => !p x)).length = l.length - (l.filter p).length := by
  induction l with
  | nil => rfl
  | cons h t ih =>
    have hle := List.length_filter_le p t
    by_cases hp : p h <;> (simp [hp, ih]; try omega)

theorem mapSet_absent {α : Type} :
    ∀ (m : List (String × α)) (k : String) (v : α),
      k ∉ m.map Prod.fst → mapSet m k v = m ++ [(k, v)]
  | [], _, _, _ => rfl
  | (k', v') :: rest, k, v, hk => by
    have hne : ¬(k' = k) := by
      intro h; exact hk (by simp [h])
    have hrest : k ∉ rest.map Prod.fst := by
      intro h; exact hk (by simp [h])
    simp [mapSet, hne, mapSet_absent rest k v hrest]

theorem foldl_mapSet_pairs {α : Type} :
    ∀ (l m : List (String × α)),
      (m.map Prod.fst ++ l.map Prod.fst).Nodup →
      l.foldl (fun acc e => mapSet acc e.1 e.2) m = m ++ l
  | [], m, _ => by simp
  | e :: l, m, hnd => by
    have hknotm : e.1 ∉ m.map Prod.fst := by
      intro hmem
      have := List.disjoint_of_nodup_append hnd
      exact this hmem (by simp)
    have hstep : mapSet m e.1 e.2 = m ++ [(e.1, e.2)] := mapSet_absent m e.1 e.2 hknotm
    have hnd2 : ((m ++ [(e.1, e.2)]).map Prod.fst ++ l.map Prod.fst).Nodup := by
      simpa [List.append_assoc] using hnd
    have := foldl_mapSet_pairs l (m ++ [(e.1, e.2)]) hnd2
    simp only [List.foldl_cons, hstep, this]
    simp

theorem scanCall_fold (path : String) :
    ∀ (cs : List CallSite) (acc : List (String × HandlerInfo) × List String),
      cs.foldl (scanCall path) acc
        = ((cs.filterMap (handleEvent? path)).foldl (fun m e => mapSet m e.1 e.2) acc.1,
           acc.2 ++ cs.filterMap invokeEvent?)
  | [], acc => by simp
  | c :: cs, acc => by
    have ih := scanCall_fold path cs
    simp only [List.foldl_cons]
    rw [ih]
    cases hfa : c.firstArgLit with
    | none =>
      simp [scanCall, handleEvent?, invokeEvent?, hfa]
    | some ch =>
      by_cases hh : (c.obj == "ipcMain" && c.prop == "handle") = true
      · by_cases hi : (c.obj == "ipcRenderer" && c.prop == "invoke") = true
        · simp [scanCall, handleEvent?, invokeEvent?, hfa, hh, hi]
        · simp [scanCall, handleEvent?, invokeEvent?, hfa, hh, hi]
      · by_cases hi : (c.obj == "ipcRenderer" && c.prop == "invoke") = true
        · simp [scanCall, handleEvent?, invokeEvent?, hfa, hh, hi]
        · simp [scanCall, handleEvent?, invokeEvent?, hfa, hh, hi]

theorem invokedOfCalls_eq (cs : List CallSite) :
    cs.filterMap invokeEvent?
      = cs.filterMap (fun c =>
          if c.obj == "ipcRenderer" && c.prop == "invoke" then c.firstArgLit
          else Option.none) := by
  have hpt : ∀ c : CallSite,
      invokeEvent? c
        = (if c.obj == "ipcRenderer" && c.prop == "invoke" then c.firstArgLit
           else Option.none) := by
    intro c
    cases hfa : c.firstArgLit <;>
      cases hh : (c.obj == "ipcRenderer" && c.prop == "invoke") <;>
        simp [invokeEvent?, hfa, hh]
  rw [show invokeEvent? = _ from funext hpt]

theorem scanIpcFiles_spec :
    ∀ (files : List IpcFile),
      scanIpcFiles files
        = ((handlePairs files).foldl (fun m e => mapSet m e.1 e.2) [],
           invokedChannelFacts files) := by
  have main : ∀ (files : List IpcFile) (acc : List (String × HandlerInfo) × List String),
      files.foldl
        (fun acc f =>
          match f.calls with
          | Option.none => acc
          | Option.some cs => cs.foldl (scanCall f.path) acc)
        acc
        = ((handlePairs files).foldl (fun m e => mapSet m e.1 e.2) acc.1,
           acc.2 ++ invokedChannelFacts files) := by
    intro files
    induction files with
    | nil => intro acc; simp [handlePairs, invokedChannelFacts]
    | cons f fs ih =>
      intro acc
      simp only [List.foldl_cons]
      cases hc : f.calls with
      | none =>
        rw [ih]
        simp [handlePairs, invokedChannelFacts, hc]
      | some cs =>
        dsimp only
        rw [scanCall_fold f.path cs acc, ih]
        simp [handlePairs, invokedChannelFacts, hc, List.foldl_append,
          invokedOfCalls_eq]
  intro files
  have := main files ([], [])
  simpa [scanIpcFiles] using this

theorem handlePairs_fst :
    ∀ (files : List IpcFile),
      (handlePairs files).map Prod.fst = definedChannelFacts files := by
  have hpt : ∀ (path : String) (c : CallSite),
      (handleEvent? path c).map Prod.fst
        = (if c.obj == "ipcMain" && c.prop == "handle" then c.firstArgLit
           else Option.none) := by
    intro path c
    cases hfa : c.firstArgLit <;>
      cases hh : (c.obj == "ipcMain" && c.prop == "handle") <;>
        simp [handleEvent?, hfa, hh]
  have percall : ∀ (path : String) (cs : List CallSite),
      (cs.filterMap (handleEvent? path)).map Prod.fst
        = cs.filterMap (fun c =>
            if c.obj == "ipcMain" && c.prop == "handle" then c.firstArgLit
            else Option.none) := by
    intro path cs
    rw [List.map_filterMap]
    simp only [hpt]
  intro files
  induction files with
  | nil => rfl
  | cons f fs ih =>
    cases hc : f.calls with
    | none => simp [handlePairs, definedChannelFacts, hc] at ih ⊢; exact ih
    | some cs =>
      simp only [handlePairs, definedChannelFacts, List.flatMap_cons, hc,
        List.map_append] at ih ⊢
      rw [percall f.path cs]
      exact congrArg _ ih

/-- **C5 (amended)** — when the `Defined` facts carry pairwise-distinct
channel names (so that the `definedHandlers` map does not merge any of
them), the detector reports exactly `N − K` `UnreferencedHandler` issues,
where `N` is the number of `Defined` facts and `K` the number of defined
channels that are also invoked somewhere — one issue per channel that has a
`Defined` fact but no `Invoked` fact. -/
theorem claim_c5_amended (files : List IpcFile)
    (hnd : (definedChannelFacts files).Nodup) :
    (detectUnusedIpcHandlers files).length
      = (definedChannelFacts files).length
        - ((definedChannelFacts files).filter
            (fun ch => (invokedChannelFacts files).contains ch)).length := by
  have hscan := scanIpcFiles_spec files
  have hkeys := handlePairs_fst files
  have hndk : ([] ++ (handlePairs files).map Prod.fst).Nodup := by
    simpa [hkeys] using hnd
  have hfold : (handlePairs files).foldl (fun m e => mapSet m e.1 e.2) []
      = handlePairs files := by
    simpa using foldl_mapSet_pairs (handlePairs files) [] hndk
  have hdet : detectUnusedIpcHandlers files
      = ((handlePairs files).filter
          (fun kv => !(invokedChannelFacts files).contains kv.1)).map
            (fun kv => kv.2) := by
    simp [detectUnusedIpcHandlers, hscan, hfold]
  rw [hdet, List.length_map]
  have hfm : ((handlePairs files).filter
        (fun kv => !(invokedChannelFacts files).contains kv.1)).length
      = (((handlePairs files).map Prod.fst).filter
          (fun ch => !(invokedChannelFacts files).contains ch)).length := by
    rw [List.filter_map, List.length_map]
    rfl
  rw [hfm, hkeys, length_filter_not]

/-- **C5 (counterexample)** — with `N = 2` `Defined` facts sharing one
channel name and `K = 0`, the claim predicts `N − K = 2` issues, but the
`definedHandlers` map keys handlers by channel name, so only one issue is
reported. -/
theorem claim_c5_counterexample :
    (definedChannelFacts c5dupFiles).length = 2 ∧
    invokedChannelFacts c5dupFiles = [] ∧
    (detectUnusedIpcHandlers c5dupFiles).length = 1 ∧
    (detectUnusedIpcHandlers c5dupFiles).length
      ≠ (definedChannelFacts c5dupFiles).length
        - ((definedChannelFacts c5dupFiles).filter
            (fun ch => (invokedChannelFacts c5dupFiles).contains ch)).length :=
  ⟨rfl, rfl, rfl, by decide⟩

/-- Witness for `claim_c5_amended` at a concrete project: `N = 2`, `K = 1`,
one reported handler. -/
theorem claim_c5_amended_witness :
    (definedChannelFacts c5okFiles).Nodup ∧
    (detectUnusedIpcHandlers c5okFiles).length
      = (definedChannelFacts c5okFiles).length
        - ((definedChannelFacts c5okFiles).filter
            (fun ch => (invokedChannelFacts c5okFiles).contains ch)).length ∧
    (detectUnusedIpcHandlers c5okFiles).length = 1 :=
  ⟨by decide, claim_c5_amended c5okFiles (by decide), rfl⟩

end C5

section Surgeon

theorem validateSyntaxFn_fst (opts : SurgeonOptions) (nf : String → Bool)
    (nc : String → Except String Unit) (st : SurgeonState) (code fp : String) :
    (validateSyntaxFn opts nf nc st code fp).1 = validationOk opts nf nc code := by
  simp only [validateSyntaxFn, validationOk]
  split
  · rfl
  · split
    · rfl
    · split <;> rfl

theorem validateSyntaxFn_of_ok {opts : SurgeonOptions} {nf : String → Bool}
    {nc : String → Except String Unit} {code : String}
    (st : SurgeonState) (fp : String)
    (h : validationOk opts nf nc code = true) :
    validateSyntaxFn opts nf nc st code fp = (true, st) := by
  simp only [validateSyntaxFn, validationOk] at h ⊢
  by_cases h1 : (!opts.validateSyntaxFlag) = true
  · simp [h1]
  · simp only [h1, if_false] at h ⊢
    by_cases h2 : nf code = true
    · simp [h2]
    · simp only [h2, if_false] at h ⊢
      cases hnc : nc code with
      | ok _ => rfl
      | error m => rw [hnc] at h; exact absurd h (by simp)

/-- **C1** — the write-iff-committed invariant of `safeModifyFile`: the
target file is overwritten exactly when the pipeline reaches the committed
exit with dry-run disabled, and on every other exit (parse skip, no
changes, generation failure, failed validation, conservative rollback,
caught modification exception, or a dry-run commit) the on-disk content is
the byte-identical pre-run content.  Generation is a pure in-memory step of
the embedding, so no partial write exists to model. -/
theorem claim_c1 {Ast : Type} (opts : SurgeonOptions)
    (parseFn : String → Except String Ast) (modFn : Ast → ModRet Ast)
    (genFn : Ast → Option String) (newFnOk : String → Bool)
    (nodeCheck : String → Except String Unit)
    (st : SurgeonState) (filePath diskContent : String) :
    let r := safeModifyFile opts parseFn modFn genFn newFnOk nodeCheck st
      filePath diskContent
    (r.wrote = true ↔ (r.outcome = MutationOutcome.committed ∧ opts.dryRun = false)) ∧
    (r.wrote = false → r.disk = diskContent) := by
  dsimp only [safeModifyFile, parseCode]
  cases hp : parseFn diskContent with
  | error m => simp
  | ok ast =>
    cases hm : modFn ast with
    | thrown m => simp [hm]
    | sameOrNull => simp [hm]
    | newAst a =>
      cases hg : genFn a with
      | none => simp [hm, hg]
      | some newContent =>
        cases hv : validateSyntaxFn opts newFnOk nodeCheck (incFilesAnalyzed st)
            newContent filePath with
        | mk ok st2 =>
          cases ok with
          | false => simp [hm, hg, hv]
          | true =>
            simp only [hm, hg, hv]
            split
            · simp
            · split
              next hd => simp [hd]
              next hd => simp at hd; simp [hd]

/-- **C2** — the conservative bound: with conservative mode enabled, a file
the pipeline actually writes satisfies
`10·(linesBefore − linesAfter) ≤ 3·linesBefore` (i.e. the line-reduction
ratio is at most 0.30, the hard-coded threshold, stated exactly over ℤ),
and a generated result whose reduction exceeds the threshold is never
committed and leaves the file untouched. -/
theorem claim_c2 {Ast : Type} (opts : SurgeonOptions)
    (parseFn : String → Except String Ast) (modFn : Ast → ModRet Ast)
    (genFn : Ast → Option String) (newFnOk : String → Bool)
    (nodeCheck : String → Except String Unit)
    (st : SurgeonState) (filePath diskContent : String)
    (hcons : opts.conservative = true) :
    let r := safeModifyFile opts parseFn modFn genFn newFnOk nodeCheck st
      filePath diskContent
    (r.wrote = true →
      10 * ((countLines diskContent : Int) - (countLines r.disk : Int))
        ≤ 3 * (countLines diskContent : Int)) ∧
    (∀ (a b : Ast) (s : String),
      parseFn diskContent = Except.ok a → modFn a = ModRet.newAst b →
      genFn b = Option.some s →
      10 * ((countLines diskContent : Int) - (countLines s : Int))
          > 3 * (countLines diskContent : Int) →
      r.outcome ≠ MutationOutcome.committed ∧ r.wrote = false ∧
        r.disk = diskContent) := by
  dsimp only [safeModifyFile, parseCode]
  constructor
  · cases hp : parseFn diskContent with
    | error m => simp
    | ok ast =>
      cases hm : modFn ast with
      | thrown m => simp [hm]
      | sameOrNull => simp [hm]
      | newAst a0 =>
        cases hg : genFn a0 with
        | none => simp [hm, hg]
        | some newContent =>
          cases hv : validateSyntaxFn opts newFnOk nodeCheck (incFilesAnalyzed st)
              newContent filePath with
          | mk ok st2 =>
            cases ok with
            | false => simp [hm, hg, hv]
            | true =>
              simp only [hm, hg, hv]
              split
              next hcond => simp
              next hcond =>
                split
                next hd => simp
                next hd =>
                  intro _
                  have hno : ¬(3 * (countLines diskContent : Int)
                      < 10 * ((countLines diskContent : Int) - (countLines newContent : Int))) := by
                    intro hlt
                    exact hcond (by simp [hcons]; omega)
                  simp only []
                  omega
  · intro a b s hpa hma hgb hx
    simp only [hpa, hma, hgb]
    cases hv : validateSyntaxFn opts newFnOk nodeCheck (incFilesAnalyzed st)
        s filePath with
    | mk ok st2 =>
      cases ok with
      | false => simp [hv]
      | true =>
        simp only [hv]
        have hcond : (opts.conservative
            && decide (10 * ((countLines diskContent : Int) - (countLines s : Int))
                        > 3 * (countLines diskContent : Int))) = true := by
          simp [hcons]; omega
        rw [if_pos hcond]
        simp

/-- **C8 (amended)** — error recording in `safeModifyFile`: a parse failure
appends a `parse_error` entry; a thrown modification callback is caught and
appends a `modification_error` entry while counting a failed modification;
a `node --check` validation failure appends a `syntax_error` entry and
counts a failed validation; but a generation failure (`generateCode`
returning `null`) only counts a failed modification and appends **nothing**
to `errors[]`.  In every case the embedded call returns normally — no
per-file error escapes it. -/
theorem claim_c8_amended {Ast : Type} (opts : SurgeonOptions)
    (parseFn : String → Except String Ast) (modFn : Ast → ModRet Ast)
    (genFn : Ast → Option String) (newFnOk : String → Bool)
    (nodeCheck : String → Except String Unit)
    (st : SurgeonState) (filePath diskContent : String) :
    let r := safeModifyFile opts parseFn modFn genFn newFnOk nodeCheck st
      filePath diskContent
    (∀ m, parseFn diskContent = Except.error m →
      r.state.errors
          = st.errors ++ [⟨filePath, "Parse error: " ++ m, "parse_error"⟩] ∧
        r.outcome = MutationOutcome.skippedParse ∧ r.disk = diskContent) ∧
    (∀ a m, parseFn diskContent = Except.ok a → modFn a = ModRet.thrown m →
      r.state.errors = st.errors ++ [⟨filePath, m, "modification_error"⟩] ∧
        r.state.statistics.modificationsFailed
          = st.statistics.modificationsFailed + 1 ∧ r.disk = diskContent) ∧
    (∀ a b, parseFn diskContent = Except.ok a → modFn a = ModRet.newAst b →
      genFn b = Option.none →
      r.state.errors = st.errors ∧
        r.state.statistics.modificationsFailed
          = st.statistics.modificationsFailed + 1 ∧
        r.outcome = MutationOutcome.generationFailed ∧ r.disk = diskContent) ∧
    (∀ a b s m, parseFn diskContent = Except.ok a → modFn a = ModRet.newAst b →
      genFn b = Option.some s → opts.validateSyntaxFlag = true →
      newFnOk s = false → nodeCheck s = Except.error m →
      r.state.errors
          = st.errors ++ [⟨filePath, "Syntax validation failed: " ++ m, "syntax_error"⟩] ∧
        r.state.statistics.validationsFailed
          = st.statistics.validationsFailed + 1 ∧ r.disk = diskContent) := by
  refine ⟨?_, ?_, ?_, ?_⟩
  · intro m hp
    simp [safeModifyFile, parseCode, hp, incFilesSkipped, incFilesAnalyzed, pushError]
  · intro a m hp hm
    simp [safeModifyFile, parseCode, hp, hm, incModFailed, incFilesAnalyzed, pushError]
  · intro a b hp hm hg
    simp [safeModifyFile, parseCode, hp, hm, hg, incModFailed, incFilesAnalyzed]
  · intro a b s m hp hm hg hflag hnf hnc
    have hval : validateSyntaxFn opts newFnOk nodeCheck (incFilesAnalyzed st) s filePath
        = (false,
           pushError (incFilesAnalyzed st)
             ⟨filePath, "Syntax validation failed: " ++ m, "syntax_error"⟩) := by
      simp [validateSyntaxFn, hflag, hnf, hnc]
    simp only [safeModifyFile, parseCode, hp, hm, hg, hval]
    simp [incValidationsFailed, pushError, incFilesAnalyzed]

/-- **C8 (counterexample)** — a run whose only failure is a generation
failure records nothing in `errors[]`: the claim says every generation
failure is recorded there as a `{file, error, type}` entry. -/
theorem claim_c8_counterexample :
    (@safeModifyFile Unit defaultSurgeonOptions
        (fun _ => Except.ok ()) (fun _ => ModRet.newAst ())
        (fun _ => Option.none) (fun _ => true) (fun _ => Except.ok ())
        initSurgeonState "app.js" "let x = 1;").outcome
      = MutationOutcome.generationFailed ∧
    (@safeModifyFile Unit defaultSurgeonOptions
        (fun _ => Except.ok ()) (fun _ => ModRet.newAst ())
        (fun _ => Option.none) (fun _ => true) (fun _ => Except.ok ())
        initSurgeonState "app.js" "let x = 1;").state.errors = [] ∧
    (@safeModifyFile Unit defaultSurgeonOptions
        (fun _ => Except.ok ()) (fun _ => ModRet.newAst ())
        (fun _ => Option.none) (fun _ => true) (fun _ => Except.ok ())
        initSurgeonState "app.js" "let x = 1;").state.statistics.modificationsFailed
      = 1 :=
  ⟨rfl, rfl, rfl⟩

/-- Witness for `claim_c8_amended`: at a concrete run whose parse oracle
throws, the recorded entry is exactly the pushed `parse_error`. -/
theorem claim_c8_amended_witness :
    (@safeModifyFile Unit defaultSurgeonOptions
        (fun _ => Except.error "boom") (fun _ => ModRet.sameOrNull)
        (fun _ => Option.none) (fun _ => true) (fun _ => Except.ok ())
        initSurgeonState "app.js" "let x = 1;").state.errors
      = [⟨"app.js", "Parse error: boom", "parse_error"⟩] := by
  have h := (@claim_c8_amended Unit defaultSurgeonOptions
    (fun _ => Except.error "boom") (fun _ => ModRet.sameOrNull)
    (fun _ => Option.none) (fun _ => true) (fun _ => Except.ok ())
    initSurgeonState "app.js" "let x = 1;").1 "boom" rfl
  simpa [initSurgeonState] using h.1

/-- **C9 (amended)** — `generateSafetyReport.success` is exactly
"no counted modification failure and an empty `errors[]`".  Consequently a
run with zero committed files reports `success: true` when its only
failures are conservative rollbacks or no-change exits (which record
nothing), while a parse skip, a validation failure, a generation failure or
a caught internal exception each make `success: false` — including the
parse-skip and validation cases the original claim counts as benign
"mutation failures". -/
theorem claim_c9_amended :
    (∀ (opts : SurgeonOptions) (st : SurgeonState),
      (generateSafetyReport opts st).success
        = (st.statistics.modificationsFailed == 0 && st.errors.length == 0)) ∧
    (∀ (Ast : Type) (opts : SurgeonOptions)
      (parseFn : String → Except String Ast) (modFn : Ast → ModRet Ast)
      (genFn : Ast → Option String) (newFnOk : String → Bool)
      (nodeCheck : String → Except String Unit) (filePath diskContent : String)
      (a b : Ast) (s : String),
      parseFn diskContent = Except.ok a → modFn a = ModRet.newAst b →
      genFn b = Option.some s →
      validationOk opts newFnOk nodeCheck s = true →
      opts.conservative = true →
      10 * ((countLines diskContent : Int) - (countLines s : Int))
          > 3 * (countLines diskContent : Int) →
      (generateSafetyReport opts
          (safeModifyFile opts parseFn modFn genFn newFnOk nodeCheck
            initSurgeonState filePath diskContent).state).success = true ∧
        (safeModifyFile opts parseFn modFn genFn newFnOk nodeCheck
          initSurgeonState filePath diskContent).outcome
            = MutationOutcome.tooAggressive ∧
        (safeModifyFile opts parseFn modFn genFn newFnOk nodeCheck
          initSurgeonState filePath diskContent).state.statistics.filesModified = 0) ∧
    (∀ (Ast : Type) (opts : SurgeonOptions)
      (parseFn : String → Except String Ast) (modFn : Ast → ModRet Ast)
      (genFn : Ast → Option String) (newFnOk : String → Bool)
      (nodeCheck : String → Except String Unit) (filePath diskContent m : String),
      parseFn diskContent = Except.error m →
      (generateSafetyReport opts
          (safeModifyFile opts parseFn modFn genFn newFnOk nodeCheck
            initSurgeonState filePath diskContent).state).success = false ∧
        (safeModifyFile opts parseFn modFn genFn newFnOk nodeCheck
          initSurgeonState filePath diskContent).state.statistics.filesModified = 0) := by
  refine ⟨fun opts st => rfl, ?_, ?_⟩
  · intro Ast opts parseFn modFn genFn newFnOk nodeCheck filePath diskContent
      a b s hp hm hg hok hcons hgt
    have hval := @validateSyntaxFn_of_ok opts newFnOk nodeCheck s
      (incFilesAnalyzed initSurgeonState) filePath hok
    have hcond : (opts.conservative
        && decide (10 * ((countLines diskContent : Int) - (countLines s : Int))
                    > 3 * (countLines diskContent : Int))) = true := by
      simp [hcons]; omega
    simp only [safeModifyFile, parseCode, hp, hm, hg, hval, hcond, if_true]
    simp [generateSafetyReport, incFilesAnalyzed, initSurgeonState, initStatistics]
  · intro Ast opts parseFn modFn genFn newFnOk nodeCheck filePath diskContent m hp
    simp [safeModifyFile, parseCode, hp, generateSafetyReport, incFilesSkipped,
      incFilesAnalyzed, pushError, initSurgeonState, initStatistics]

/-- **C9 (counterexample)** — a run with zero committed files whose only
failure is one skipped file (a per-file parse error, nothing broken on
disk) reports `success: false`, because the parse skip lands in `errors[]`
and `success` requires `errors.length === 0`. -/
theorem claim_c9_counterexample :
    (@safeModifyFile Unit defaultSurgeonOptions
        (fun _ => Except.error "Unexpected token") (fun _ => ModRet.sameOrNull)
        (fun _ => Option.none) (fun _ => true) (fun _ => Except.ok ())
        initSurgeonState "app.js" "let x = 1;").outcome
      = MutationOutcome.skippedParse ∧
    (@safeModifyFile Unit defaultSurgeonOptions
        (fun _ => Except.error "Unexpected token") (fun _ => ModRet.sameOrNull)
        (fun _ => Option.none) (fun _ => true) (fun _ => Except.ok ())
        initSurgeonState "app.js" "let x = 1;").state.statistics.filesModified = 0 ∧
    (@safeModifyFile Unit defaultSurgeonOptions
        (fun _ => Except.error "Unexpected token") (fun _ => ModRet.sameOrNull)
        (fun _ => Option.none) (fun _ => true) (fun _ => Except.ok ())
        initSurgeonState "app.js" "let x = 1;").state.statistics.modificationsFailed = 0 ∧
    (generateSafetyReport defaultSurgeonOptions
        (@safeModifyFile Unit defaultSurgeonOptions
          (fun _ => Except.error "Unexpected token") (fun _ => ModRet.sameOrNull)
          (fun _ => Option.none) (fun _ => true) (fun _ => Except.ok ())
          initSurgeonState "app.js" "let x = 1;").state).success = false :=
  ⟨rfl, rfl, rfl, rfl⟩

/-- Witness for `claim_c1`: a concrete run that reaches the committed exit
with dry-run disabled does write. -/
theorem claim_c1_witness :
    (@safeModifyFile Unit defaultSurgeonOptions
        (fun _ => Except.ok ()) (fun _ => ModRet.newAst ())
        (fun _ => Option.some gen7) (fun _ => true) (fun _ => Except.ok ())
        initSurgeonState "app.js" disk10).wrote = true :=
  (@claim_c1 Unit defaultSurgeonOptions
    (fun _ => Except.ok ()) (fun _ => ModRet.newAst ())
    (fun _ => Option.some gen7) (fun _ => true) (fun _ => Except.ok ())
    initSurgeonState "app.js" disk10).1.mpr ⟨by rfl, rfl⟩

/-- Witness for `claim_c2`: at the concrete 10-line file, a 6-line result
(40% reduction) is rolled back by the conservative check. -/
theorem claim_c2_witness :
    (@safeModifyFile Unit defaultSurgeonOptions
        (fun _ => Except.ok ()) (fun _ => ModRet.newAst ())
        (fun _ => Option.some gen6) (fun _ => true) (fun _ => Except.ok ())
        initSurgeonState "app.js" disk10).outcome
      ≠ MutationOutcome.committed ∧
    (@safeModifyFile Unit defaultSurgeonOptions
        (fun _ => Except.ok ()) (fun _ => ModRet.newAst ())
        (fun _ => Option.some gen6) (fun _ => true) (fun _ => Except.ok ())
        initSurgeonState "app.js" disk10).disk = disk10 := by
  have h := (@claim_c2 Unit defaultSurgeonOptions
    (fun _ => Except.ok ()) (fun _ => ModRet.newAst ())
    (fun _ => Option.some gen6) (fun _ => true) (fun _ => Except.ok ())
    initSurgeonState "app.js" disk10 rfl).2 () () gen6 rfl rfl rfl (by decide)
  exact ⟨h.1, h.2.2⟩

/-- Witness for `claim_c9_amended`: the conservative-rollback scenario at
concrete inputs still reports `success: true`. -/
theorem claim_c9_amended_witness :
    (generateSafetyReport defaultSurgeonOptions
        (@safeModifyFile Unit defaultSurgeonOptions
          (fun _ => Except.ok ()) (fun _ => ModRet.newAst ())
          (fun _ => Option.some gen6) (fun _ => true) (fun _ => Except.ok ())
          initSurgeonState "app.js" disk10).state).success = true := by
  have h := claim_c9_amended.2.1 Unit defaultSurgeonOptions
    (fun _ => Except.ok ()) (fun _ => ModRet.newAst ())
    (fun _ => Option.some gen6) (fun _ => true) (fun _ => Except.ok ())
    "app.js" disk10 () () gen6 rfl rfl rfl rfl rfl (by decide)
  exact h.1

end Surgeon

section C4

theorem lookupLocs_addEntry (m : List (String × List DupLocation)) (e : FpEntry)
    (h : String) :
    lookupLocs (addEntry m e) h
      = lookupLocs m h ++ (if e.1 = h then [e.2] else []) := by
  induction m with
  | nil =>
    by_cases he : e.1 = h
    · simp [addEntry, lookupLocs, he]
    · simp [addEntry, lookupLocs, he]
  | cons kv rest ih =>
    obtain ⟨k, locs⟩ := kv
    by_cases hk : k = e.1
    · by_cases hh : e.1 = h
      · simp [addEntry, lookupLocs, hk, hh]
      · have hkh : ¬(k = h) := by rw [hk]; exact hh
        simp [addEntry, lookupLocs, hk, hh, hkh]
    · by_cases hkh : k = h
      · have hh : ¬(e.1 = h) := by
          intro he; exact hk (by rw [he, hkh])
        have hne : ¬(h = e.1) := fun h2 => hh h2.symm
        simp [addEntry, lookupLocs, hk, hkh, hh, hne]
      · simp [addEntry, lookupLocs, hk, hkh, ih]

theorem buildHashMap_lookup (es : List FpEntry) (h : String) :
    lookupLocs (buildHashMap es) h
      = (es.filter (fun e => e.1 = h)).map Prod.snd := by
  have main : ∀ (es : List FpEntry) (acc : List (String × List DupLocation)),
      lookupLocs (es.foldl addEntry acc) h
        = lookupLocs acc h ++ (es.filter (fun e => e.1 = h)).map Prod.snd := by
    intro es
    induction es with
    | nil => intro acc; simp
    | cons e es ih =>
      intro acc
      simp only [List.foldl_cons]
      rw [ih (addEntry acc e), lookupLocs_addEntry]
      by_cases he : e.1 = h
      · simp [he]
      · simp [he]
  simpa [buildHashMap, lookupLocs] using main es []

theorem lookupLocs_mem :
    ∀ (m : List (String × List DupLocation)) (h : String),
      lookupLocs m h ≠ [] → (h, lookupLocs m h) ∈ m
  | [], h, hne => absurd rfl hne
  | (k, locs) :: rest, h, hne => by
    by_cases hk : k = h
    · simp [lookupLocs, hk]
    · have hr := lookupLocs_mem rest h (by simpa [lookupLocs, hk] using hne)
      simp only [lookupLocs, hk, if_false] at hne ⊢
      exact List.mem_cons_of_mem _ hr

theorem dupGroups_complete (es : List FpEntry) (h : String) (i j : Nat)
    (locA locB : DupLocation) (hij : i < j)
    (hi : es[i]? = Option.some (h, locA)) (hj : es[j]? = Option.some (h, locB)) :
    ∃ g ∈ dupGroupsOf es,
      locA ∈ g.locations ∧ locB ∈ g.locations ∧ 2 ≤ g.duplicateCount := by
  have hjlen : j < es.length := by
    rcases List.getElem?_eq_some.mp hj with ⟨hlt, _⟩
    exact hlt
  have hjel : es[j] = (h, locB) := (List.getElem?_eq_some.mp hj).choose_spec
  have hsplit : es = es.take j ++ ((h, locB) :: es.drop (j + 1)) := by
    conv_lhs => rw [← List.take_append_drop j es]
    rw [List.drop_eq_getElem_cons hjlen, hjel]
  have hAmem : (h, locA) ∈ es.take j := by
    apply List.getElem?_mem (n := i)
    rw [List.getElem?_take, if_pos hij]
    exact hi
  have hAfilter : (h, locA) ∈ (es.take j).filter (fun e => e.1 = h) :=
    List.mem_filter.mpr ⟨hAmem, by simp⟩
  set L := lookupLocs (buildHashMap es) h with hLdef
  have hL : L = (es.filter (fun e => e.1 = h)).map Prod.snd := buildHashMap_lookup es h
  have hLsplit : L = ((es.take j).filter (fun e => e.1 = h)).map Prod.snd
      ++ locB :: ((es.drop (j + 1)).filter (fun e => e.1 = h)).map Prod.snd := by
    rw [hL]
    conv_lhs => rw [hsplit]
    simp [List.filter_append, List.filter_cons]
  have hAinL : locA ∈ L := by
    rw [hLsplit]
    exact List.mem_append.mpr (Or.inl (List.mem_map.mpr ⟨(h, locA), hAfilter, rfl⟩))
  have hBinL : locB ∈ L := by
    rw [hLsplit]
    exact List.mem_append.mpr (Or.inr (List.mem_cons_self _ _))
  have hlen2 : 2 ≤ L.length := by
    rw [hLsplit]
    have h1 : 1 ≤ (((es.take j).filter (fun e => e.1 = h)).map Prod.snd).length := by
      have : ((es.take j).filter (fun e => e.1 = h)) ≠ [] := by
        intro hnil; rw [hnil] at hAfilter; exact absurd hAfilter (by simp)
      simp only [List.length_map]
      exact List.length_pos.mpr this
    simp only [List.length_append, List.length_cons]
    omega
  have hmem : (h, L) ∈ buildHashMap es := by
    apply lookupLocs_mem
    intro hnil
    rw [← hLdef] at hnil
    rw [hnil] at hAinL
    exact absurd hAinL (by simp)
  refine ⟨⟨L, L.length⟩, ?_, hAinL, hBinL, hlen2⟩
  apply List.mem_filterMap.mpr
  refine ⟨(h, L), hmem, ?_⟩
  simp only []
  rw [if_pos (by omega)]

/-- **C4** — fingerprint symmetry: if two subtrees have the same normalized
structure (all position/comment metadata removed and every identifier name
erased — `normalizeNode` equality), their fingerprint digests are equal, and
whenever both of their entries appear (at any two distinct positions, i.e.
regardless of indexing order) among the fingerprinted over-threshold bodies
of a run, `detectDuplicateCode` puts both locations into one
`DuplicateGroup` with `duplicateCount ≥ 2`. -/
theorem claim_c4 (a b : Node) (hn : normalizeNode a = normalizeNode b) :
    fingerprintHash a = fingerprintHash b ∧
    ∀ (files : List (String × Node)) (i j : Nat) (locA locB : DupLocation),
      i < j →
      (fingerprintEntries files)[i]? = Option.some (fingerprintHash a, locA) →
      (fingerprintEntries files)[j]? = Option.some (fingerprintHash b, locB) →
      ∃ g ∈ detectDuplicateCode files,
        locA ∈ g.locations ∧ locB ∈ g.locations ∧ 2 ≤ g.duplicateCount := by
  have hh : fingerprintHash a = fingerprintHash b := by
    unfold fingerprintHash
    rw [hn]
  refine ⟨hh, ?_⟩
  intro files i j locA locB hij hi hj
  rw [hh] at hi
  exact dupGroups_complete (fingerprintEntries files) (fingerprintHash b) i j
    locA locB hij hi hj

/-- Witness for `claim_c4` at two concrete files whose 6-line function
bodies differ only in identifier names and positions. -/
theorem claim_c4_witness :
    normalizeNode c4bodyF = normalizeNode c4bodyG ∧
    (fingerprintEntries c4files)[0]?
        = Option.some (fingerprintHash c4bodyF, ⟨"a.js", 1, 6⟩) ∧
    (fingerprintEntries c4files)[1]?
        = Option.some (fingerprintHash c4bodyG, ⟨"b.js", 2, 7⟩) ∧
    ∃ g ∈ detectDuplicateCode c4files,
      (⟨"a.js", 1, 6⟩ : DupLocation) ∈ g.locations ∧
      (⟨"b.js", 2, 7⟩ : DupLocation) ∈ g.locations ∧ 2 ≤ g.duplicateCount :=
  ⟨rfl, rfl, rfl,
   (claim_c4 c4bodyF c4bodyG rfl).2 c4files 0 1 ⟨"a.js", 1, 6⟩ ⟨"b.js", 2, 7⟩
     (by omega) rfl rfl⟩

end C4

section C7

theorem filterMap_cons_toList {α β : Type} (f : α → Option β) (x : α) (l : List α) :
    List.filterMap f (x :: l) = (f x).toList ++ List.filterMap f l := by
  cases h : f x <;> simp [List.filterMap_cons, h]

mutual
theorem collectEntries_eq (file : String) :
    ∀ n : Node, collectEntries file n = (preorderN n).filterMap (fingerprintEntry? file)
  | .ident nm loc => by
      simp [collectEntries, preorderN, filterMap_cons_toList]
  | .numLit v loc => by
      simp [collectEntries, preorderN, filterMap_cons_toList]
  | .strLit v loc => by
      simp [collectEntries, preorderN, filterMap_cons_toList]
  | .blockStmt body loc => by
      simp [collectEntries, preorderN, filterMap_cons_toList,
        collectEntriesL_eq file body]
  | .returnStmt arg loc => by
      simp [collectEntries, preorderN, filterMap_cons_toList,
        collectEntriesO_eq file arg]
  | .binaryExpr op l r loc => by
      simp [collectEntries, preorderN, filterMap_cons_toList, List.filterMap_append,
        collectEntries_eq file l, collectEntries_eq file r]
  | .callExpr callee args loc => by
      simp [collectEntries, preorderN, filterMap_cons_toList, List.filterMap_append,
        collectEntries_eq file callee, collectEntriesL_eq file args]
  | .memberExpr o p loc => by
      simp [collectEntries, preorderN, filterMap_cons_toList, List.filterMap_append,
        collectEntries_eq file o, collectEntries_eq file p]
  | .functionDecl id params body loc => by
      simp [collectEntries, preorderN, filterMap_cons_toList, List.filterMap_append,
        collectEntries_eq file id, collectEntriesL_eq file params,
        collectEntries_eq file body]
  | .functionExpr params body loc => by
      simp [collectEntries, preorderN, filterMap_cons_toList, List.filterMap_append,
        collectEntriesL_eq file params, collectEntries_eq file body]
  | .arrowFnExpr params body loc => by
      simp [collectEntries, preorderN, filterMap_cons_toList, List.filterMap_append,
        collectEntriesL_eq file params, collectEntries_eq file body]
  | .varDecl kind decls loc => by
      simp [collectEntries, preorderN, filterMap_cons_toList,
        collectEntriesL_eq file decls]
  | .varDeclarator id init loc => by
      simp [collectEntries, preorderN, filterMap_cons_toList, List.filterMap_append,
        collectEntries_eq file id, collectEntriesO_eq file init]
  | .classMethod key params body loc => by
      simp [collectEntries, preorderN, filterMap_cons_toList, List.filterMap_append,
        collectEntries_eq file key, collectEntriesL_eq file params,
        collectEntries_eq file body]
  | .exprStmt e loc => by
      simp [collectEntries, preorderN, filterMap_cons_toList,
        collectEntries_eq file e]
  | .program body loc => by
      simp [collectEntries, preorderN, filterMap_cons_toList,
        collectEntriesL_eq file body]
theorem collectEntriesO_eq (file : String) :
    ∀ o : OptNode, collectEntriesO file o = (preorderO o).filterMap (fingerprintEntry? file)
  | .none => by simp [collectEntriesO, preorderO]
  | .some n => by simp [collectEntriesO, preorderO, collectEntries_eq file n]
theorem collectEntriesL_eq (file : String) :
    ∀ l : NodeList, collectEntriesL file l = (preorderL l).filterMap (fingerprintEntry? file)
  | .nil => by simp [collectEntriesL, preorderL]
  | .cons h t => by
      simp [collectEntriesL, preorderL, List.filterMap_append,
        collectEntries_eq file h, collectEntriesL_eq file t]
end

/-- **C7 (amended)** — the duplicate-detection traversal fingerprints
exactly those visited nodes for which `fingerprintEntry?` fires, and that
test fires precisely for a function/method/arrow node whose **body is a
`BlockStatement`** satisfying `body.loc.end.line − body.loc.start.line > 3`.
Concise (non-block) arrow bodies are never fingerprinted, whatever their
span. -/
theorem claim_c7_amended :
    (∀ (file : String) (n : Node),
      collectEntries file n = (preorderN n).filterMap (fingerprintEntry? file)) ∧
    (∀ (file : String) (n : Node),
      (fingerprintEntry? file n).isSome = true ↔
        ∃ stmts bloc,
          fnBodyOf n = Option.some (Node.blockStmt stmts bloc) ∧
          3 < bloc.endLine - bloc.startLine) := by
  refine ⟨collectEntries_eq, ?_⟩
  intro file n
  unfold fingerprintEntry?
  cases hb : fnBodyOf n with
  | none => simp
  | some body =>
    cases body with
    | blockStmt stmts bloc =>
      by_cases hspan : 3 < bloc.endLine - bloc.startLine
      · simp only [hspan, if_true, Option.isSome_some, true_iff]
        exact ⟨stmts, bloc, rfl, hspan⟩
      · simp [hspan]
        omega
    | ident nm loc => simp
    | numLit v loc => simp
    | strLit v loc => simp
    | returnStmt arg loc => simp
    | binaryExpr op l r loc => simp
    | callExpr callee args loc => simp
    | memberExpr o p loc => simp
    | functionDecl id params b loc => simp
    | functionExpr params b loc => simp
    | arrowFnExpr params b loc => simp
    | varDecl kind decls loc => simp
    | varDeclarator id init loc => simp
    | classMethod key params b loc => simp
    | exprStmt e loc => simp
    | program b loc => simp

/-- **C7 (counterexample)** — the concise arrow body spans 10 lines (far
over the 3-line threshold), yet the traversal fingerprints nothing: the
claim says such a body is fingerprinted on its expression. -/
theorem claim_c7_counterexample :
    fnBodyOf c7arrow = Option.some (.numLit 1 ⟨1, 10⟩) ∧
    3 < (nodeLoc (.numLit 1 ⟨1, 10⟩ : Node)).endLine
          - (nodeLoc (.numLit 1 ⟨1, 10⟩ : Node)).startLine ∧
    collectEntries "app.js" c7prog = [] :=
  ⟨rfl, by decide, rfl⟩

end C7

section C6

/-- **C6** — code evaluation of the per-file change budget.  The claim (and
spec) say at most `maxChangesPerFile` nodes (default 10) are removed per
file, the rest remaining.  In the source, the visitors of
`removeUnusedFunctions` are shorthand methods whose `this` is the undefined
traversal state, so the budget conjunct
`changeCount < this.options.maxChangesPerFile` throws a `TypeError` at the
first matching node instead of comparing: the callback never removes
anything.  Conjuncts: the constructor does default the budget to 10; at the
concrete failing input (three removable targets) the callback throws the
`TypeError`, which `safeModifyFile` catches as a `modification_error` entry
with a failed-modification count and no write; and in general the callback
either throws or reports no changes — it never returns a modified tree, on
any input, so no run of `removeUnusedFunctions` ever removes a node. -/
theorem claim_c6_code_evaluation :
    (mkSurgeonOptions Option.none Option.none Option.none Option.none).maxChangesPerFile
        = 10 ∧
    countTargetsN c6targets c6prog = 3 ∧
    removeUnusedCallback c6targets c6prog = ModRet.thrown budgetTypeErrorMsg ∧
    (let r := safeModifyFile (mkSurgeonOptions Option.none Option.none Option.none
        Option.none) (fun _ => Except.ok c6prog) (removeUnusedCallback c6targets)
        (fun _ => Option.some "") (fun _ => true) (fun _ => Except.ok ())
        initSurgeonState "main.js" c6disk
     r.outcome = MutationOutcome.modificationError budgetTypeErrorMsg ∧
       r.wrote = false ∧ r.disk = c6disk ∧
       r.state.errors = [⟨"main.js", budgetTypeErrorMsg, "modification_error"⟩] ∧
       r.state.statistics.modificationsFailed = 1 ∧
       r.state.statistics.filesModified = 0) ∧
    (∀ (targets : List String) (ast : Node),
      removeUnusedCallback targets ast = ModRet.thrown budgetTypeErrorMsg ∨
        removeUnusedCallback targets ast = ModRet.sameOrNull) := by
  refine ⟨rfl, rfl, rfl, ⟨rfl, rfl, rfl, rfl, rfl, rfl⟩, ?_⟩
  intro targets ast
  unfold removeUnusedCallback
  by_cases h : 0 < countTargetsN targets ast
  · rw [if_pos h]; exact Or.inl rfl
  · rw [if_neg h]; exact Or.inr rfl

end C6

section C10

theorem charsMatch_append : ∀ {p s r : List Char}, charsMatch p s = some r → s = p ++ r
  | [], s, r, h => by simp [charsMatch] at h; simp [h]
  | _ :: _, [], r, h => by simp [charsMatch] at h
  | p :: ps, c :: cs, r, h => by
    simp only [charsMatch] at h
    by_cases hc : c = p
    · rw [if_pos hc] at h
      simp [hc, charsMatch_append h]
    · rw [if_neg hc] at h
      exact absurd h (by simp)

theorem prevAt_nil (p0 : Option Char) : prevAt p0 [] = p0 := rfl

theorem prevAt_cons (p0 : Option Char) (c : Char) (u : List Char) :
    prevAt p0 (c :: u) = prevAt (some c) u := by
  cases u with
  | nil => rfl
  | cons d u' =>
    cases h : (d :: u').getLast? with
    | none => simp at h
    | some e => simp [prevAt, h]

theorem prevAt_append {w u2 : List Char} {p : Option Char} (h : w.getLast? = p) :
    prevAt p (w ++ u2) = prevAt p u2 := by
  cases hu : u2.getLast? with
  | some e =>
    have hne : u2 ≠ [] := by
      intro he; rw [he] at hu; exact absurd hu (by simp)
    unfold prevAt
    rw [List.getLast?_append_of_ne_nil _ hne]
  | none =>
    have hu2 : u2 = [] := List.getLast?_eq_none_iff.mp hu
    subst hu2
    unfold prevAt
    simp only [List.append_nil]
    rw [h]
    cases p <;> rfl

theorem head?_append_left {l : List Char} (r : List Char) (h : l ≠ []) :
    (l ++ r).head? = l.head? := by
  cases l with
  | nil => exact absurd rfl h
  | cons c cs => rfl

/-- A successful anchored match of `\bIDENT\b` is exactly a whole-word
occurrence at the current position. -/
theorem wordMatchAt_some_occ {ident : List Char} {p0 : Option Char} {s r : List Char}
    (hid : ident ≠ []) (h : wordMatchAt ident p0 s = some r) :
    OccAt ident p0 s [] r := by
  unfold wordMatchAt at h
  by_cases hb : wordBoundary p0 s.head? = true
  · rw [if_pos hb] at h
    cases hm : charsMatch ident s with
    | none => simp only [hm] at h; exact absurd h (by simp)
    | some rest =>
      simp only [hm] at h
      by_cases hb2 : wordBoundary ident.getLast? rest.head? = true
      · rw [if_pos hb2] at h
        have hr : rest = r := by simpa using h
        subst hr
        have hs : s = ident ++ rest := charsMatch_append hm
        refine ⟨by simpa using hs, ?_, hb2⟩
        have hh : s.head? = ident.head? := by
          rw [hs]; exact head?_append_left rest hid
        rw [hh] at hb
        rw [prevAt_nil]
        exact hb
      · rw [if_neg hb2] at h; exact absurd h (by simp)
  · rw [if_neg hb] at h; exact absurd h (by simp)

theorem wordMatchAt_of_occ {ident : List Char} {p0 : Option Char} {s r : List Char}
    (hid : ident ≠ []) (h : OccAt ident p0 s [] r) :
    wordMatchAt ident p0 s = some r := by
  obtain ⟨hs, h1, h2⟩ := h
  rw [prevAt_nil] at h1
  have hs' : s = ident ++ r := by simpa using hs
  subst hs'
  unfold wordMatchAt
  rw [head?_append_left r hid, if_pos h1]
  simp only [charsMatch_self]
  rw [if_pos h2]

theorem occAt_cons {ident : List Char} {p0 : Option Char} {c : Char} {cs u rest : List Char} :
    OccAt ident p0 (c :: cs) (c :: u) rest ↔ OccAt ident (some c) cs u rest := by
  unfold OccAt
  rw [prevAt_cons]
  constructor
  · rintro ⟨hs, h1, h2⟩
    refine ⟨?_, h1, h2⟩
    simpa using hs
  · rintro ⟨hs, h1, h2⟩
    refine ⟨?_, h1, h2⟩
    simp [hs]

/-- A whole-word occurrence anywhere in the subject forces the scanner to
find at least one match. -/
theorem occ_scan_pos {ident : List Char} (hid : ident ≠ []) :
    ∀ (fuel : Nat) (p0 : Option Char) (u s rest : List Char),
      s.length < fuel → OccAt ident p0 s u rest →
      1 ≤ (wordMatchScan ident fuel p0 s).length := by
  intro fuel
  induction fuel with
  | zero => intro p0 u s rest hf _; omega
  | succ f ih =>
    intro p0 u s rest hf hocc
    obtain ⟨hs, h1, h2⟩ := hocc
    subst hs
    simp only [wordMatchScan]
    rw [if_neg hid]
    cases hw : wordMatchAt ident p0 (u ++ ident ++ rest) with
    | some r => simp
    | none =>
      cases u with
      | nil =>
        rw [wordMatchAt_of_occ hid ⟨rfl, h1, h2⟩] at hw
        exact absurd hw (by simp)
      | cons c u' =>
        have hf' : (u' ++ ident ++ rest).length < f := by
          simp only [List.cons_append, List.length_cons] at hf
          omega
        exact ih (some c) u' (u' ++ ident ++ rest) rest hf'
          (occAt_cons.mp ⟨rfl, h1, h2⟩)

/-- Any match found by the scanner is a whole-word occurrence. -/
theorem scan_pos_occ {ident : List Char} (hid : ident ≠ []) :
    ∀ (fuel : Nat) (p0 : Option Char) (s : List Char),
      1 ≤ (wordMatchScan ident fuel p0 s).length →
      ∃ u rest, OccAt ident p0 s u rest := by
  intro fuel
  induction fuel with
  | zero => intro p0 s h; simp [wordMatchScan] at h
  | succ f ih =>
    intro p0 s h
    simp only [wordMatchScan] at h
    rw [if_neg hid] at h
    cases hw : wordMatchAt ident p0 s with
    | some r =>
      exact ⟨[], r, wordMatchAt_some_occ hid hw⟩
    | none =>
      rw [hw] at h
      cases s with
      | nil => simp at h
      | cons c cs =>
        obtain ⟨u, rest, hocc⟩ := ih (some c) cs h
        exact ⟨c :: u, rest, occAt_cons.mpr hocc⟩

/-- Two scanner matches yield two disjoint whole-word occurrences. -/
theorem scan_two_twoOcc {ident : List Char} (hid : ident ≠ []) :
    ∀ (fuel : Nat) (p0 : Option Char) (s : List Char),
      2 ≤ (wordMatchScan ident fuel p0 s).length →
      TwoOcc ident p0 s := by
  intro fuel
  induction fuel with
  | zero => intro p0 s h; simp [wordMatchScan] at h
  | succ f ih =>
    intro p0 s h
    simp only [wordMatchScan] at h
    rw [if_neg hid] at h
    cases hw : wordMatchAt ident p0 s with
    | some r =>
      rw [hw] at h
      have h2 : 2 ≤ (ident :: wordMatchScan ident f ident.getLast? r).length := h
      simp only [List.length_cons] at h2
      obtain ⟨u2, v, hocc2⟩ := scan_pos_occ hid f ident.getLast? r (by omega)
      exact ⟨[], r, wordMatchAt_some_occ hid hw, u2, v, hocc2⟩
    | none =>
      rw [hw] at h
      cases s with
      | nil => simp at h
      | cons c cs =>
        obtain ⟨u, rest, h1, u2, v, hocc2⟩ := ih (some c) cs h
        exact ⟨c :: u, rest, occAt_cons.mpr h1, u2, v, hocc2⟩

/-- Two disjoint whole-word occurrences force at least two scanner
matches, wherever the scanner's own (possibly earlier) matches fall. -/
theorem twoOcc_scan_two {ident : List Char} (hid : ident ≠ []) :
    ∀ (fuel : Nat) (p0 : Option Char) (s : List Char),
      s.length < fuel → TwoOcc ident p0 s →
      2 ≤ (wordMatchScan ident fuel p0 s).length := by
  intro fuel
  induction fuel with
  | zero => intro p0 s hf _; omega
  | succ f ih =>
    intro p0 s hf h
    obtain ⟨u, rest, hocc1, u2, v, hocc2⟩ := h
    simp only [wordMatchScan]
    rw [if_neg hid]
    cases hw : wordMatchAt ident p0 s with
    | none =>
      cases u with
      | nil =>
        rw [wordMatchAt_of_occ hid hocc1] at hw
        exact absurd hw (by simp)
      | cons c u' =>
        obtain ⟨hs, h1, h2⟩ := hocc1
        subst hs
        have hf' : (u' ++ ident ++ rest).length < f := by
          simp only [List.cons_append, List.length_cons] at hf
          omega
        exact ih (some c) (u' ++ ident ++ rest) hf'
          ⟨u', rest, occAt_cons.mp ⟨rfl, h1, h2⟩, u2, v, hocc2⟩
    | some r =>
      have hlen := wordMatchAt_length hw
      have hsr : s = ident ++ r := by simpa using (wordMatchAt_some_occ hid hw).1
      have hrf : r.length < f := by
        have hpos : 0 < ident.length := List.length_pos.mpr hid
        omega
      have hone : 1 ≤ (wordMatchScan ident f ident.getLast? r).length := by
        cases u with
        | nil =>
          have h0 : ident ++ rest = ident ++ r := by
            have h1 := hocc1.1
            rw [hsr] at h1
            simpa using h1.symm
          have hre : rest = r := List.append_cancel_left h0
          subst hre
          exact occ_scan_pos hid f ident.getLast? u2 rest v hrf hocc2
        | cons c u' =>
          have hu : (c :: u') ++ ident ++ rest = ident ++ r := by
            rw [← hocc1.1, hsr]
          have hr_eq : r = ((c :: u') ++ ident).drop ident.length ++ rest := by
            have h2r : (ident ++ r).drop ident.length
                = ((c :: u') ++ ident).drop ident.length ++ rest := by
              rw [← hu]
              exact List.drop_append_of_le_length
                (by simp only [List.length_append, List.length_cons]; omega)
            rw [List.drop_left] at h2r
            exact h2r
          have hw_ne : ((c :: u') ++ ident).drop ident.length ≠ [] := by
            intro hnil
            have hc := congrArg List.length hnil
            simp only [List.length_drop, List.length_append, List.length_cons,
              List.length_nil] at hc
            omega
          have hw_last : (((c :: u') ++ ident).drop ident.length).getLast?
              = ident.getLast? := by
            have hsplit := List.take_append_drop ident.length ((c :: u') ++ ident)
            calc (((c :: u') ++ ident).drop ident.length).getLast?
                = (((c :: u') ++ ident).take ident.length
                    ++ ((c :: u') ++ ident).drop ident.length).getLast? :=
                  (List.getLast?_append_of_ne_nil _ hw_ne).symm
              _ = ((c :: u') ++ ident).getLast? := by rw [hsplit]
              _ = ident.getLast? := List.getLast?_append_of_ne_nil _ hid
          have hocc2' : OccAt ident ident.getLast?
              (((c :: u') ++ ident).drop ident.length ++ rest)
              (((c :: u') ++ ident).drop ident.length ++ u2) v := by
            obtain ⟨hr2, hb1, hb2⟩ := hocc2
            refine ⟨?_, ?_, hb2⟩
            · rw [hr2]; simp [List.append_assoc]
            · rw [prevAt_append hw_last]; exact hb1
          rw [hr_eq]
          exact occ_scan_pos hid f ident.getLast?
            (((c :: u') ++ ident).drop ident.length ++ u2)
            (((c :: u') ++ ident).drop ident.length ++ rest) v
            (by rw [← hr_eq]; exact hrf) hocc2'
      simp only [List.length_cons]
      omega

/-- The scanner finds more than one match exactly when the identifier has
two disjoint whole-word occurrences in the subject text. -/
theorem countWordMatches_twoOcc {content ident : List Char} (hid : ident ≠ []) :
    1 < countWordMatches content ident ↔ TwoOcc ident Option.none content := by
  unfold countWordMatches wordMatchList
  constructor
  · intro h
    exact scan_two_twoOcc hid (content.length + 1) none content h
  · intro h
    exact twoOcc_scan_two hid (content.length + 1) none content (by omega) h

theorem isUsedInFile_truthy (content s : String) (hs : s ≠ "") :
    jsTruthy (isUsedInFile content (JsValue.vStr s)) = true ↔
      1 < countWordMatches content.data s.data := by
  simp only [isUsedInFile, if_neg hs, jsMatchWord, countWordMatches]
  cases hw : wordMatchList s.data none content.data with
  | nil => simp [jsTruthy, hw]
  | cons m ms => simp [jsTruthy, hw]

theorem string_data_ne_nil {s : String} (hs : s ≠ "") : s.data ≠ [] := by
  intro h
  exact hs (String.ext (by simpa using h))

/-- **C10** — totality and contract of `isUsedInFile`: every non-string
argument and the empty string yield `true` (the binding is assumed used,
and the embedded function — like the JS original, whose escaped pattern
always compiles — never throws); for a non-empty identifier the result is
truthy exactly when the `g`-flagged regex `\bident\b` matches more than
once, equivalently (proved against the text itself, not the scanner)
exactly when the identifier occurs as a `\b`-delimited whole word at two
disjoint positions of the file's text.  The zero-match case returns JS
`null`, which is falsy. -/
theorem claim_c10 :
    (∀ (content : String) (v : JsValue), (∀ s, v ≠ JsValue.vStr s) →
      isUsedInFile content v = JsValue.vBool true) ∧
    (∀ content : String, isUsedInFile content (JsValue.vStr "") = JsValue.vBool true) ∧
    (∀ (content s : String), s ≠ "" →
      (jsTruthy (isUsedInFile content (JsValue.vStr s)) = true ↔
        1 < countWordMatches content.data s.data)) ∧
    (∀ (content s : String), s ≠ "" →
      (jsTruthy (isUsedInFile content (JsValue.vStr s)) = true ↔
        TwoOcc s.data Option.none content.data)) := by
  refine ⟨?_, ?_, ?_, ?_⟩
  · intro content v hv
    cases v with
    | vStr s => exact absurd rfl (hv s)
    | vNull => rfl
    | vBool b => rfl
    | vOther => rfl
  · intro content
    simp [isUsedInFile]
  · intro content s hs
    exact isUsedInFile_truthy content s hs
  · intro content s hs
    rw [isUsedInFile_truthy content s hs]
    exact countWordMatches_twoOcc (string_data_ne_nil hs)

/-- Witness for `claim_c10` at concrete inputs: `foo` declared and called
is used (and hence occurs at two disjoint whole-word positions); `bar`
occurring once is not. -/
theorem claim_c10_witness :
    jsTruthy (isUsedInFile "const foo = 1; foo();" (JsValue.vStr "foo")) = true ∧
    jsTruthy (isUsedInFile "const bar = 1;" (JsValue.vStr "bar")) = false ∧
    isUsedInFile "const foo = 1;" JsValue.vOther = JsValue.vBool true ∧
    TwoOcc "foo".data Option.none "const foo = 1; foo();".data := by
  refine ⟨?_, ?_, ?_, ?_⟩
  · exact (claim_c10.2.2.1 "const foo = 1; foo();" "foo" (by decide)).mpr (by decide)
  · decide
  · exact claim_c10.1 "const foo = 1;" JsValue.vOther (by intro s h; cases h)
  · exact (claim_c10.2.2.2 "const foo = 1; foo();" "foo" (by decide)).mp (by decide)

end C10

end ECD
